import Mathlib

/-!
Verification of the did:char DID protocol engine against its specification.

The Go sources are shallowly embedded: byte strings (`[]byte` and Go
`string`, which is a byte string) become `List Nat` with values below 256,
machine integers become `Nat`, fallible functions return `Option`, and the
SQLite-backed store becomes an explicit state record that each processing
step threads through.  `crypto/sha256` and the base64url codec from
`pkg/crypto` are implemented concretely so that theorems about commitments
and suffixes are executable.
-/

namespace DidChar

/-- Byte strings: Go `[]byte` / `string` values, one `Nat` (< 256) per byte. -/
abbrev Bytes := List Nat

/-- ASCII bytes of a Lean string literal, used for Go string constants. -/
def ascii (s : String) : Bytes := s.data.map Char.toNat

/-! ## SHA-256 (`pkg/crypto`, `crypto/sha256`)

Words are `Nat` reduced modulo `2 ^ 32`; the compression state is an
eight-field structure so that the digest length is fixed by construction. -/

/-- 32-bit truncation. -/
def w32 (x : Nat) : Nat := x % 4294967296

/-- 32-bit right rotation (argument assumed below `2 ^ 32`). -/
def rotr (n x : Nat) : Nat := w32 (x / 2 ^ n + x * 2 ^ (32 - n))

/-- SHA-256 small sigma 0. -/
def ssig0 (x : Nat) : Nat := (rotr 7 x) ^^^ (rotr 18 x) ^^^ (x / 2 ^ 3)

/-- SHA-256 small sigma 1. -/
def ssig1 (x : Nat) : Nat := (rotr 17 x) ^^^ (rotr 19 x) ^^^ (x / 2 ^ 10)

/-- SHA-256 big sigma 0. -/
def bsig0 (x : Nat) : Nat := (rotr 2 x) ^^^ (rotr 13 x) ^^^ (rotr 22 x)

/-- SHA-256 big sigma 1. -/
def bsig1 (x : Nat) : Nat := (rotr 6 x) ^^^ (rotr 11 x) ^^^ (rotr 25 x)

/-- SHA-256 round constants. -/
def shaK : List Nat :=
  [1116352408, 1899447441, 3049323471, 3921009573, 961987163,
   1508970993, 2453635748, 2870763221, 3624381080, 310598401,
   607225278, 1426881987, 1925078388, 2162078206, 2614888103,
   3248222580, 3835390401, 4022224774, 264347078, 604807628,
   770255983, 1249150122, 1555081692, 1996064986, 2554220882,
   2821834349, 2952996808, 3210313671, 3336571891, 3584528711,
   113926993, 338241895, 666307205, 773529912, 1294757372,
   1396182291, 1695183700, 1986661051, 2177026350, 2456956037,
   2730485921, 2820302411, 3259730800, 3345764771, 3516065817,
   3600352804, 4094571909, 275423344, 430227734, 506948616,
   659060556, 883997877, 958139571, 1322822218, 1537002063,
   1747873779, 1955562222, 2024104815, 2227730452, 2361852424,
   2428436474, 2756734187, 3204031479, 3329325298]

/-- SHA-256 compression state. -/
structure ShaState where
  a : Nat
  b : Nat
  c : Nat
  d : Nat
  e : Nat
  f : Nat
  g : Nat
  h : Nat
deriving Repr, DecidableEq

/-- Initial SHA-256 state. -/
def shaH0 : ShaState :=
  ⟨1779033703, 3144134277, 1013904242, 2773480762,
   1359893119, 2600822924, 528734635, 1541459225⟩

/-- One SHA-256 round with round constant `k` and schedule word `wt`. -/
def shaRound (s : ShaState) (k wt : Nat) : ShaState :=
  let t1 := w32 (s.h + bsig1 s.e + ((s.e &&& s.f) ^^^ ((4294967295 - s.e) &&& s.g)) + k + wt)
  let t2 := w32 (bsig0 s.a + ((s.a &&& s.b) ^^^ (s.a &&& s.c) ^^^ (s.b &&& s.c)))
  ⟨w32 (t1 + t2), s.a, s.b, s.c, w32 (s.d + t1), s.e, s.f, s.g⟩

/-- Fold the 64 rounds over paired constants and schedule words. -/
def shaRounds : ShaState → List (Nat × Nat) → ShaState
  | s, [] => s
  | s, (k, wt) :: rest => shaRounds (shaRound s k wt) rest

/-- Extend the 16 message words to the full 64-entry schedule. -/
def shaExtend (ws : List Nat) : Nat → List Nat
  | 0 => ws
  | n + 1 =>
    let ws' := shaExtend ws n
    let i := ws'.length
    ws' ++ [w32 (ssig1 (ws'.getD (i - 2) 0) + ws'.getD (i - 7) 0 +
                 ssig0 (ws'.getD (i - 15) 0) + ws'.getD (i - 16) 0)]

/-- Big-endian 32-bit words from bytes (four bytes per word). -/
def bytesToWords : Bytes → List Nat
  | b0 :: b1 :: b2 :: b3 :: rest =>
    (b0 * 16777216 + b1 * 65536 + b2 * 256 + b3) :: bytesToWords rest
  | _ => []

/-- Process one 64-byte block into the running state. -/
def shaBlock (s : ShaState) (block : Bytes) : ShaState :=
  let ws := shaExtend (bytesToWords block) 48
  let t := shaRounds s (shaK.zip ws)
  ⟨w32 (s.a + t.a), w32 (s.b + t.b), w32 (s.c + t.c), w32 (s.d + t.d),
   w32 (s.e + t.e), w32 (s.f + t.f), w32 (s.g + t.g), w32 (s.h + t.h)⟩

/-- Split a padded message into 64-byte blocks (fuel = list length). -/
def chunk64 : Nat → Bytes → List Bytes
  | 0, _ => []
  | _, [] => []
  | fuel + 1, bs => bs.take 64 :: chunk64 fuel (bs.drop 64)

/-- SHA-256 padding: `0x80`, zeros to 56 mod 64, then 64-bit big-endian bit length. -/
def shaPad (msg : Bytes) : Bytes :=
  let len := msg.length
  let zeros := (119 - len % 64) % 64
  let bitLen := len * 8
  msg ++ [128] ++ List.replicate zeros 0 ++
    [bitLen / 2 ^ 56 % 256, bitLen / 2 ^ 48 % 256, bitLen / 2 ^ 40 % 256,
     bitLen / 2 ^ 32 % 256, bitLen / 2 ^ 24 % 256, bitLen / 2 ^ 16 % 256,
     bitLen / 2 ^ 8 % 256, bitLen % 256]

/-- Big-endian bytes of a 32-bit word. -/
def wordBytes (w : Nat) : Bytes :=
  [w / 2 ^ 24 % 256, w / 2 ^ 16 % 256, w / 2 ^ 8 % 256, w % 256]

/-- SHA-256 digest of a byte string (`crypto.SHA256` in `pkg/crypto`). -/
def sha256 (msg : Bytes) : Bytes :=
  let padded := shaPad msg
  let final := (chunk64 padded.length padded).foldl shaBlock shaH0
  wordBytes final.a ++ wordBytes final.b ++ wordBytes final.c ++ wordBytes final.d ++
    wordBytes final.e ++ wordBytes final.f ++ wordBytes final.g ++ wordBytes final.h

theorem sha256_length (msg : Bytes) : (sha256 msg).length = 32 := by
  simp [sha256, wordBytes]

theorem sha256_bytes_lt (msg : Bytes) : ∀ b ∈ sha256 msg, b < 256 := by
  intro b hb
  simp only [sha256, wordBytes, List.mem_append, List.mem_cons, List.not_mem_nil,
    or_false] at hb
  omega

/-! ## Base64url without padding (`pkg/crypto`)

`Base64URLEncode` emits standard base64url and strips the `=` padding;
`Base64URLDecode` re-appends padding (a length of 1 mod 4 yields three `=`
characters, which Go's decoder rejects) and decodes non-strictly, ignoring
unused trailing bits. -/

/-- Base64url alphabet: index (0–63) to ASCII code. -/
def b64char (n : Nat) : Nat :=
  if n < 26 then 65 + n
  else if n < 52 then 97 + (n - 26)
  else if n < 62 then 48 + (n - 52)
  else if n = 62 then 45
  else 95

/-- Base64url alphabet: ASCII code to index, `none` outside the alphabet. -/
def b64val (c : Nat) : Option Nat :=
  if 65 ≤ c ∧ c ≤ 90 then some (c - 65)
  else if 97 ≤ c ∧ c ≤ 122 then some (c - 97 + 26)
  else if 48 ≤ c ∧ c ≤ 57 then some (c - 48 + 52)
  else if c = 45 then some 62
  else if c = 95 then some 63
  else none

/-- `crypto.Base64URLEncode`: base64url without padding, three input bytes
per four output characters, the final group shortened. -/
def b64encode : Bytes → Bytes
  | [] => []
  | [a] => [b64char (a / 4), b64char (a % 4 * 16)]
  | [a, b] => [b64char (a / 4), b64char (a % 4 * 16 + b / 16), b64char (b % 16 * 4)]
  | a :: b :: c :: rest =>
    b64char (a / 4) :: b64char (a % 4 * 16 + b / 16) ::
      b64char (b % 16 * 4 + c / 64) :: b64char (c % 64) :: b64encode rest

/-- `crypto.Base64URLDecode`: pad to a multiple of four and decode; a length
of 1 mod 4 or a character outside the alphabet is an error. -/
def b64decode : Bytes → Option Bytes
  | [] => some []
  | [_] => none
  | [c1, c2] =>
    match b64val c1, b64val c2 with
    | some v1, some v2 => some [v1 * 4 + v2 / 16]
    | _, _ => none
  | [c1, c2, c3] =>
    match b64val c1, b64val c2, b64val c3 with
    | some v1, some v2, some v3 => some [v1 * 4 + v2 / 16, v2 % 16 * 16 + v3 / 4]
    | _, _, _ => none
  | c1 :: c2 :: c3 :: c4 :: rest =>
    match b64val c1, b64val c2, b64val c3, b64val c4, b64decode rest with
    | some v1, some v2, some v3, some v4, some tail =>
      some ((v1 * 4 + v2 / 16) :: (v2 % 16 * 16 + v3 / 4) :: (v3 % 4 * 64 + v4) :: tail)
    | _, _, _, _, _ => none

theorem b64val_b64char {n : Nat} (h : n < 64) : b64val (b64char n) = some n := by
  have hall : ∀ m, m < 64 → b64val (b64char m) = some m := by decide
  exact hall n h

/-- Decoding an encoding recovers the original byte string. -/
theorem b64decode_b64encode (bs : Bytes) (h : ∀ b ∈ bs, b < 256) :
    b64decode (b64encode bs) = some bs := by
  induction bs using b64encode.induct with
  | case1 => rfl
  | case2 a =>
    have ha := h a (by simp)
    rw [b64encode]
    rw [show b64decode [b64char (a / 4), b64char (a % 4 * 16)] =
      some [a / 4 * 4 + a % 4 * 16 / 16] from by
        rw [b64decode, b64val_b64char (by omega), b64val_b64char (by omega)]]
    congr 2
    omega
  | case3 a b =>
    have ha := h a (by simp)
    have hb := h b (by simp)
    rw [b64encode]
    rw [show b64decode [b64char (a / 4), b64char (a % 4 * 16 + b / 16),
        b64char (b % 16 * 4)] =
      some [a / 4 * 4 + (a % 4 * 16 + b / 16) / 16,
            (a % 4 * 16 + b / 16) % 16 * 16 + b % 16 * 4 / 4] from by
        rw [b64decode, b64val_b64char (by omega), b64val_b64char (by omega),
          b64val_b64char (by omega)]]
    congr 2
    · omega
    · congr 1
      omega
  | case4 a b c rest ih =>
    have ha := h a (by simp)
    have hb := h b (by simp)
    have hc := h c (by simp)
    have hrest : ∀ x ∈ rest, x < 256 := fun x hx => h x (by simp [hx])
    rw [b64encode]
    rw [show ∀ xs, b64decode (b64char (a / 4) :: b64char (a % 4 * 16 + b / 16) ::
        b64char (b % 16 * 4 + c / 64) :: b64char (c % 64) :: xs) =
        match b64decode xs with
        | some tail => some ((a / 4 * 4 + (a % 4 * 16 + b / 16) / 16) ::
            ((a % 4 * 16 + b / 16) % 16 * 16 + (b % 16 * 4 + c / 64) / 4) ::
            ((b % 16 * 4 + c / 64) % 4 * 64 + c % 64) :: tail)
        | none => none from by
      intro xs
      rw [b64decode, b64val_b64char (by omega), b64val_b64char (by omega),
        b64val_b64char (by omega), b64val_b64char (by omega)]
      rcases b64decode xs with _ | tail <;> rfl]
    rw [ih hrest]
    have e1 : a / 4 * 4 + (a % 4 * 16 + b / 16) / 16 = a := by omega
    have e2 : (a % 4 * 16 + b / 16) % 16 * 16 + (b % 16 * 4 + c / 64) / 4 = b := by omega
    have e3 : (b % 16 * 4 + c / 64) % 4 * 64 + c % 64 = c := by omega
    rw [e1, e2, e3]

/-- `crypto.HashToBase64URL`: SHA-256 then unpadded base64url. -/
def hashToB64 (data : Bytes) : Bytes := b64encode (sha256 data)

/-! ## Legacy payload codec (`pkg/encoding`: `EncodePayload` / `DecodePayload`)

The payload is `version ‖ opType ‖ uvarint(len) ‖ suffix ‖ uvarint(len) ‖ json`.
`DecodePayload` allocates `make([]byte, n)` directly from the decoded varint;
when `n` does not fit a signed 64-bit `int` the Go runtime panics
(`makeslice: len out of range`), which the result type records separately
from ordinary decode errors. -/

/-- Result of `DecodePayload`: a runtime panic, a decode error, or the
decoded components. -/
inductive PayloadResult where
  | panicked : PayloadResult
  | failed : PayloadResult
  | ok (version : Nat) (opType : Nat) (didSuffix : Bytes) (operationJSON : Bytes) :
      PayloadResult
deriving Repr, DecidableEq

/-- `binary.ReadUvarint`: little-endian base-128 groups, high bit is the
continuation flag; at most ten bytes, and a tenth byte above 1 overflows.
Returns the value and the unconsumed tail. -/
def readUvarint (fuel : Nat) (x : Nat) (shift : Nat) : Bytes → Option (Nat × Bytes)
  | [] => none
  | b :: rest =>
    let byte := b % 256
    if byte < 128 then
      if fuel = 9 ∧ byte > 1 then none
      else some (x + byte * 2 ^ shift, rest)
    else
      if fuel ≥ 9 then none
      else readUvarint (fuel + 1) (x + (byte - 128) * 2 ^ shift) (shift + 7) rest

/-- `encoding.DecodePayload` from the point where the hex string has been
decoded to bytes. -/
def decodePayload (data : Bytes) : PayloadResult :=
  match data with
  | [] => .failed
  | version :: rest1 =>
    match rest1 with
    | [] => .failed
    | opType :: rest2 =>
      match readUvarint 0 0 0 rest2 with
      | none => .failed
      | some (suffixLen, rest3) =>
        if 2 ^ 63 ≤ suffixLen then .panicked
        else if rest3.length < suffixLen then .failed
        else
          match readUvarint 0 0 0 (rest3.drop suffixLen) with
          | none => .failed
          | some (jsonLen, rest4) =>
            if 2 ^ 63 ≤ jsonLen then .panicked
            else if rest4.length < jsonLen then .failed
            else .ok version opType (rest3.take suffixLen) (rest4.take jsonLen)

/-! ## Wrapper stripping (`pkg/did/processor.go`: `stripWrappers`)

The Go helpers slice the hex string at computed offsets; an offset past the
end of the string panics, which the `Option` result records as `none`.
Offsets are in bytes here (the hex offsets are all even). -/

/-- `stripSlotWrapper`: drop the `0x00 0x00` marker plus a CompactSize length. -/
def stripSlotWrapper (data : Bytes) : Option Bytes :=
  if data.length < 3 then some data
  else
    let c := data.getD 2 0
    let skip := if c < 0xfd then 3 else if c = 0xfd then 5 else if c = 0xfe then 7 else 11
    if skip ≤ data.length then some (data.drop skip) else none

/-- Scan past a Go varint starting at `offset`, mirroring the byte loop in
`stripReferendumVoteWrapper` (stops after the first byte below `0x80`). -/
def scanVarint (data : Bytes) (offset : Nat) (fuel : Nat) : Nat :=
  match fuel with
  | 0 => offset
  | fuel + 1 =>
    if offset < data.length then
      if data.getD offset 0 < 128 then offset + 1
      else scanVarint data (offset + 1) fuel
    else offset

/-- `stripReferendumVoteWrapper`: drop the leaf-type byte, a varint ballot
number and a CompactSize length. -/
def stripReferendumVoteWrapper (data : Bytes) : Option Bytes :=
  if data.length < 3 then some data
  else
    let offset := scanVarint data 1 data.length
    if offset ≥ data.length then some data
    else
      let c := data.getD offset 0
      let offset' := offset + (if c < 0xfd then 1 else if c = 0xfd then 3 else if c = 0xfe then 5 else 9)
      if offset' ≤ data.length then some (data.drop offset') else none

/-- `stripWrappers`: detect and remove either ballot envelope. -/
def stripWrappers (data : Bytes) : Option Bytes :=
  if data.length < 3 then some data
  else if data.getD 0 0 = 0 ∧ data.getD 1 0 = 0 then stripSlotWrapper data
  else if data.getD 0 0 = 0 then stripReferendumVoteWrapper data
  else some data

/-! ## Compact binary codec (`pkg/encoding/compact.go`)

Encoders return `Option Bytes` (Go returns `error` for over-long strings,
bad sibling widths and unknown patch types); decoders consume a prefix of
the input and return the parsed value with the unconsumed tail, collapsing
Go's latched decoder error into `none`. -/

/-- `KeySizes`: public-key and signature widths per key type byte. -/
def keySizes (kt : Nat) : Option (Nat × Nat) :=
  if kt = 0 then some (32, 64)
  else if kt = 1 then some (33, 64)
  else if kt = 2 then some (33, 64)
  else if kt = 3 then some (48, 96)
  else none

/-- The 3-byte compact header. -/
structure CompactHeader where
  version : Nat
  operation : Nat
  flags : Nat
deriving Repr, DecidableEq

/-- A public key in compact form. -/
structure CompactPublicKey where
  id : Bytes
  keyType : Nat
  keyBytes : Bytes
  purposes : Nat
deriving Repr, DecidableEq

/-- A service in compact form. -/
structure CompactService where
  id : Bytes
  svcType : Bytes
  endpoint : Bytes
deriving Repr, DecidableEq

/-- A controller reveal in compact form. -/
structure CompactReveal where
  index : Nat
  keyType : Nat
  publicKey : Bytes
  merkleDepth : Nat
  merkleSiblings : List Bytes
  signature : Bytes
deriving Repr, DecidableEq

/-- A single patch in compact form. -/
structure CompactPatch where
  ptype : Nat
  publicKeys : List CompactPublicKey
  keyIDs : List Bytes
  services : List CompactService
  serviceIDs : List Bytes
deriving Repr, DecidableEq

/-- A delta: the list of patches. -/
structure CompactDelta where
  patches : List CompactPatch
deriving Repr, DecidableEq

/-- A compact UPDATE operation. -/
structure CompactUpdate where
  header : CompactHeader
  didSuffix : Bytes
  reveals : List CompactReveal
  newCommitment : Bytes
  delta : CompactDelta
  aggregatedSigKey : Bytes
deriving Repr, DecidableEq

/-- A compact CREATE operation. -/
structure CompactCreate where
  header : CompactHeader
  suffixDataHash : Bytes
  updateCommitment : Bytes
  recoveryCommitment : Bytes
  updateThreshold : Nat
  updateControllerCount : Nat
  recoveryThreshold : Nat
  recoveryControllerCount : Nat
  publicKeys : List CompactPublicKey
  services : List CompactService
deriving Repr, DecidableEq

/-- A compact DEACTIVATE operation. -/
structure CompactDeactivate where
  header : CompactHeader
  didSuffix : Bytes
  reveals : List CompactReveal
deriving Repr, DecidableEq

/-- `Encoder.WriteString`: 1-byte length prefix, error above 255. -/
def wString (s : Bytes) : Option Bytes :=
  if s.length > 255 then none else some (s.length :: s)

/-- `Encoder.WriteLongString`: 2-byte big-endian length prefix, error above 65535. -/
def wLongString (s : Bytes) : Option Bytes :=
  if s.length > 65535 then none else some (s.length / 256 :: s.length % 256 :: s)

/-- `Encoder.WritePublicKey`. -/
def wPublicKey (pk : CompactPublicKey) : Option Bytes :=
  match wString pk.id with
  | some i => some (i ++ pk.keyType :: (pk.keyBytes ++ [pk.purposes]))
  | none => none

/-- `Encoder.WriteService`. -/
def wService (svc : CompactService) : Option Bytes := do
  let a ← wString svc.id
  let b ← wString svc.svcType
  let c ← wLongString svc.endpoint
  pure (a ++ b ++ c)

/-- `Encoder.WriteReveal`: index, key type, key, depth, siblings (each must
be exactly 32 bytes), then signature. The declared depth is written as-is,
without checking it against the sibling count. -/
def wReveal (r : CompactReveal) : Option Bytes :=
  if r.merkleSiblings.all fun s => s.length = 32 then
    some (r.index :: r.keyType :: (r.publicKey ++ r.merkleDepth ::
      (r.merkleSiblings.flatten ++ r.signature)))
  else none

/-- Concatenated encodings of a list of items. -/
def wList (w : α → Option Bytes) : List α → Option Bytes
  | [] => some []
  | x :: xs => do
    let b ← w x
    let rest ← wList w xs
    pure (b ++ rest)

/-- `Encoder.WritePatch`: the patch-type byte, a count byte (Go's `byte(len)`
cast, hence mod 256), then the items of the list selected by the type. -/
def wPatch (p : CompactPatch) : Option Bytes :=
  match p.ptype with
  | 1 =>
    match wList wPublicKey p.publicKeys with
    | some b => some (1 :: (p.publicKeys.length % 256) :: b)
    | none => none
  | 2 =>
    match wList wString p.keyIDs with
    | some b => some (2 :: (p.keyIDs.length % 256) :: b)
    | none => none
  | 3 =>
    match wList wService p.services with
    | some b => some (3 :: (p.services.length % 256) :: b)
    | none => none
  | 4 =>
    match wList wString p.serviceIDs with
    | some b => some (4 :: (p.serviceIDs.length % 256) :: b)
    | none => none
  | _ => none

/-- `Encoder.WriteDelta`: patch count byte then the patches. -/
def wDelta (d : CompactDelta) : Option Bytes :=
  match wList wPatch d.patches with
  | some b => some ((d.patches.length % 256) :: b)
  | none => none

/-- `computeRevealValue`: the Go placeholder copies the first 32 bytes of
the public key into a zeroed 32-byte buffer instead of hashing (it panics
when the key is shorter than 32 bytes; every valid key size is at least 32). -/
def computeRevealValue (publicKey : Bytes) : Bytes := publicKey.take 32

/-- `EncodeUpdate`: header, suffix, reveals (threshold: count byte then full
reveals; single: recomputed reveal value, key type, key, signature), new
commitment, delta. `AggregatedSigKey` is never written. -/
def encodeUpdate (u : CompactUpdate) : Option Bytes := do
  let revs ←
    if u.header.flags &&& 1 ≠ 0 then
      match wList wReveal u.reveals with
      | some b => some ((u.reveals.length % 256) :: b)
      | none => none
    else
      match u.reveals with
      | [r] => some (computeRevealValue r.publicKey ++ r.keyType ::
          (r.publicKey ++ r.signature))
      | _ => none
  let db ← wDelta u.delta
  pure ([u.header.version, u.header.operation, u.header.flags] ++ u.didSuffix ++
    revs ++ u.newCommitment ++ db)

/-- `EncodeDeactivate`: header, suffix, reveals; no commitment or delta. -/
def encodeDeactivate (d : CompactDeactivate) : Option Bytes := do
  let revs ←
    if d.header.flags &&& 1 ≠ 0 then
      match wList wReveal d.reveals with
      | some b => some ((d.reveals.length % 256) :: b)
      | none => none
    else
      match d.reveals with
      | [r] => some (computeRevealValue r.publicKey ++ r.keyType ::
          (r.publicKey ++ r.signature))
      | _ => none
  pure ([d.header.version, d.header.operation, d.header.flags] ++ d.didSuffix ++ revs)

/-- `EncodeCreate`: header, suffix-data hash, both commitments, the four
threshold parameters when flagged, then the initial document's keys and
services with count bytes (Go's `byte(len)` casts). -/
def encodeCreate (c : CompactCreate) : Option Bytes := do
  let kb ← wList wPublicKey c.publicKeys
  let sb ← wList wService c.services
  pure ([c.header.version, c.header.operation, c.header.flags] ++
    c.suffixDataHash ++ c.updateCommitment ++ c.recoveryCommitment ++
    (if c.header.flags &&& 1 ≠ 0 then
      [c.updateThreshold, c.updateControllerCount, c.recoveryThreshold,
        c.recoveryControllerCount]
     else []) ++
    (c.publicKeys.length % 256) :: kb ++ (c.services.length % 256) :: sb)

/-- `Decoder.ReadByte`. -/
def rByte : Bytes → Option (Nat × Bytes)
  | [] => none
  | b :: rest => some (b, rest)

/-- `Decoder.ReadBytes`: exactly `n` bytes or an error. -/
def rBytes (n : Nat) (bs : Bytes) : Option (Bytes × Bytes) :=
  if n ≤ bs.length then some (bs.take n, bs.drop n) else none

/-- `Decoder.ReadString`. -/
def rString (bs : Bytes) : Option (Bytes × Bytes) := do
  let (len, r1) ← rByte bs
  rBytes len r1

/-- `Decoder.ReadUint16`. -/
def rU16 (bs : Bytes) : Option (Nat × Bytes) := do
  let (hi, r1) ← rByte bs
  let (lo, r2) ← rByte r1
  pure (hi * 256 + lo, r2)

/-- `Decoder.ReadLongString`. -/
def rLongString (bs : Bytes) : Option (Bytes × Bytes) := do
  let (len, r1) ← rU16 bs
  rBytes len r1

/-- `Decoder.ReadPublicKey`. -/
def rPublicKey (bs : Bytes) : Option (CompactPublicKey × Bytes) := do
  let (id, r1) ← rString bs
  let (kt, r2) ← rByte r1
  let (sz, _) ← keySizes kt
  let (kb, r3) ← rBytes sz r2
  let (purp, r4) ← rByte r3
  pure (⟨id, kt, kb, purp⟩, r4)

/-- `Decoder.ReadService`. -/
def rService (bs : Bytes) : Option (CompactService × Bytes) := do
  let (id, r1) ← rString bs
  let (ty, r2) ← rString r1
  let (ep, r3) ← rLongString r2
  pure (⟨id, ty, ep⟩, r3)

/-- Read `n` items with the given reader, threading the tail. -/
def rList (r : Bytes → Option (α × Bytes)) : Nat → Bytes → Option (List α × Bytes)
  | 0, bs => some ([], bs)
  | n + 1, bs => do
    let (x, rest) ← r bs
    let (xs, rest') ← rList r n rest
    pure (x :: xs, rest')

/-- `Decoder.ReadReveal`: the sibling count read is the declared depth. -/
def rReveal (bs : Bytes) : Option (CompactReveal × Bytes) := do
  let (idx, r1) ← rByte bs
  let (kt, r2) ← rByte r1
  let (psz, ssz) ← keySizes kt
  let (pk, r3) ← rBytes psz r2
  let (depth, r4) ← rByte r3
  let (sibs, r5) ← rList (rBytes 32) depth r4
  let (sig, r6) ← rBytes ssz r5
  pure (⟨idx, kt, pk, depth, sibs, sig⟩, r6)

/-- `Decoder.ReadPatch`: type byte, count byte, then the selected item list;
the unselected lists stay empty. -/
def rPatch (bs : Bytes) : Option (CompactPatch × Bytes) := do
  let (pt, r1) ← rByte bs
  match pt with
  | 1 => do
    let (cnt, r2) ← rByte r1
    let (pks, r3) ← rList rPublicKey cnt r2
    pure (⟨1, pks, [], [], []⟩, r3)
  | 2 => do
    let (cnt, r2) ← rByte r1
    let (ids, r3) ← rList rString cnt r2
    pure (⟨2, [], ids, [], []⟩, r3)
  | 3 => do
    let (cnt, r2) ← rByte r1
    let (svcs, r3) ← rList rService cnt r2
    pure (⟨3, [], [], svcs, []⟩, r3)
  | 4 => do
    let (cnt, r2) ← rByte r1
    let (ids, r3) ← rList rString cnt r2
    pure (⟨4, [], [], [], ids⟩, r3)
  | _ => none

/-- `Decoder.ReadDelta`. -/
def rDelta (bs : Bytes) : Option (CompactDelta × Bytes) := do
  let (cnt, r1) ← rByte bs
  let (ps, r2) ← rList rPatch cnt r1
  pure (⟨ps⟩, r2)

/-- `DecodeUpdate`: header with version/operation checks, suffix, reveals
(threshold: counted list; single: a 32-byte reveal value that is read and
discarded, then key type, key, signature), new commitment, delta. Trailing
bytes are ignored. -/
def decodeUpdate (data : Bytes) : Option CompactUpdate := do
  let (v, r1) ← rByte data
  let (op, r2) ← rByte r1
  let (fl, r3) ← rByte r2
  if v = 2 ∧ op = 2 then do
    let (suffix, r4) ← rBytes 32 r3
    if fl &&& 1 ≠ 0 then do
      let (cnt, r5) ← rByte r4
      let (revs, r6) ← rList rReveal cnt r5
      let (commit, r7) ← rBytes 32 r6
      let (delta, _) ← rDelta r7
      pure ⟨⟨v, op, fl⟩, suffix, revs, commit, delta, []⟩
    else do
      let (_, r5) ← rBytes 32 r4
      let (kt, r6) ← rByte r5
      let (psz, ssz) ← keySizes kt
      let (pk, r7) ← rBytes psz r6
      let (sig, r8) ← rBytes ssz r7
      let (commit, r9) ← rBytes 32 r8
      let (delta, _) ← rDelta r9
      pure ⟨⟨v, op, fl⟩, suffix, [⟨0, kt, pk, 0, [], sig⟩], commit, delta, []⟩
  else none

/-- `Decoder.ReadHeader`: the three header bytes. -/
def rHeader (bs : Bytes) : Option (CompactHeader × Bytes) := do
  let (v, r1) ← rByte bs
  let (op, r2) ← rByte r1
  let (fl, r3) ← rByte r2
  pure (⟨v, op, fl⟩, r3)

/-- The four threshold parameter bytes of a CREATE, read only when the
threshold flag is set (the struct fields otherwise keep their zero values). -/
def rThreshold4 (fl : Nat) (bs : Bytes) : Option ((Nat × Nat × Nat × Nat) × Bytes) :=
  if fl &&& 1 ≠ 0 then do
    let (ut, s1) ← rByte bs
    let (un, s2) ← rByte s1
    let (rt, s3) ← rByte s2
    let (rn, s4) ← rByte s3
    pure ((ut, un, rt, rn), s4)
  else pure ((0, 0, 0, 0), bs)

/-- `DecodeCreate`: header with version/operation checks, the three hashes,
the threshold parameters when flagged, then counted key and service lists.
Trailing bytes are ignored. -/
def decodeCreate (data : Bytes) : Option CompactCreate := do
  let (hdr, r3) ← rHeader data
  if hdr.version = 2 ∧ hdr.operation = 1 then do
    let (sfx, r4) ← rBytes 32 r3
    let (uc, r5) ← rBytes 32 r4
    let (rc, r6) ← rBytes 32 r5
    let ((ut, un, rt, rn), r7) ← rThreshold4 hdr.flags r6
    let (kc, r8) ← rByte r7
    let (pks, r9) ← rList rPublicKey kc r8
    let (sc, r10) ← rByte r9
    let (svcs, _) ← rList rService sc r10
    pure ⟨hdr, sfx, uc, rc, ut, un, rt, rn, pks, svcs⟩
  else none

theorem rHeader_cons (v op fl : Nat) (rest : Bytes) :
    rHeader (v :: op :: fl :: rest) = some (⟨v, op, fl⟩, rest) := rfl

theorem rThreshold4_pos {fl : Nat} (h : fl &&& 1 ≠ 0) (ut un rt rn : Nat) (rest : Bytes) :
    rThreshold4 fl (ut :: un :: rt :: rn :: rest) = some ((ut, un, rt, rn), rest) := by
  unfold rThreshold4
  rw [if_pos h]
  rfl

theorem rThreshold4_neg {fl : Nat} (h : ¬fl &&& 1 ≠ 0) (rest : Bytes) :
    rThreshold4 fl rest = some ((0, 0, 0, 0), rest) := by
  unfold rThreshold4
  rw [if_neg h]
  rfl

/-- `DecodeDeactivate`. -/
def decodeDeactivate (data : Bytes) : Option CompactDeactivate := do
  let (v, r1) ← rByte data
  let (op, r2) ← rByte r1
  let (fl, r3) ← rByte r2
  if v = 2 ∧ op = 4 then do
    let (suffix, r4) ← rBytes 32 r3
    if fl &&& 1 ≠ 0 then do
      let (cnt, r5) ← rByte r4
      let (revs, _) ← rList rReveal cnt r5
      pure ⟨⟨v, op, fl⟩, suffix, revs⟩
    else do
      let (_, r5) ← rBytes 32 r4
      let (kt, r6) ← rByte r5
      let (psz, ssz) ← keySizes kt
      let (pk, r7) ← rBytes psz r6
      let (sig, _) ← rBytes ssz r7
      pure ⟨⟨v, op, fl⟩, suffix, [⟨0, kt, pk, 0, [], sig⟩]⟩
  else none

/-! ### Well-formed operations and the encode/decode round trip -/

/-- Well-formed reveal for threshold mode: a known key type, matching key
and signature widths, byte-valued index, and a declared depth that equals
the sibling count with 32-byte siblings. -/
def wfReveal (r : CompactReveal) : Bool :=
  r.index < 256 && r.merkleDepth == r.merkleSiblings.length &&
    r.merkleDepth < 256 && r.merkleSiblings.all (fun s => s.length == 32) &&
    (match keySizes r.keyType with
     | some (psz, ssz) => r.publicKey.length == psz && r.signature.length == ssz
     | none => false)

/-- Well-formed reveal for single-key mode: the fields the wire format does
not carry are at their zero values. -/
def wfSingleReveal (r : CompactReveal) : Bool :=
  r.index == 0 && r.merkleDepth == 0 && r.merkleSiblings.isEmpty &&
    (match keySizes r.keyType with
     | some (psz, ssz) => r.publicKey.length == psz && r.signature.length == ssz
     | none => false)

/-- Well-formed public key entry: known type, matching width, byte-valued
purposes, id below the 1-byte length limit. -/
def wfPublicKey (pk : CompactPublicKey) : Bool :=
  pk.id.length ≤ 255 && pk.purposes < 256 &&
    (match keySizes pk.keyType with
     | some (psz, _) => pk.keyBytes.length == psz
     | none => false)

/-- Well-formed service entry: lengths below the 1- and 2-byte limits. -/
def wfService (svc : CompactService) : Bool :=
  svc.id.length ≤ 255 && svc.svcType.length ≤ 255 && svc.endpoint.length ≤ 65535

/-- Well-formed patch: a known type, the selected list within the count
byte with well-formed items, and the unselected lists empty. -/
def wfPatch (p : CompactPatch) : Bool :=
  match p.ptype with
  | 1 =>
    p.publicKeys.length ≤ 255 && p.publicKeys.all wfPublicKey &&
      p.keyIDs.isEmpty && p.services.isEmpty && p.serviceIDs.isEmpty
  | 2 =>
    p.keyIDs.length ≤ 255 && p.keyIDs.all (fun s => s.length ≤ 255) &&
      p.publicKeys.isEmpty && p.services.isEmpty && p.serviceIDs.isEmpty
  | 3 =>
    p.services.length ≤ 255 && p.services.all wfService &&
      p.publicKeys.isEmpty && p.keyIDs.isEmpty && p.serviceIDs.isEmpty
  | 4 =>
    p.serviceIDs.length ≤ 255 && p.serviceIDs.all (fun s => s.length ≤ 255) &&
      p.publicKeys.isEmpty && p.keyIDs.isEmpty && p.services.isEmpty
  | _ => false

/-- Well-formed delta: at most 255 well-formed patches. -/
def wfDelta (d : CompactDelta) : Bool :=
  d.patches.length ≤ 255 && d.patches.all wfPatch

/-- Well-formed UPDATE: compact version and UPDATE op type, 32-byte suffix
and commitment, no aggregated key, a well-formed delta, and reveals matching
the threshold flag (a counted list, or exactly one zero-extended reveal). -/
def wfUpdate (u : CompactUpdate) : Bool :=
  u.header.version == 2 && u.header.operation == 2 && u.header.flags < 256 &&
    u.didSuffix.length == 32 && u.newCommitment.length == 32 &&
    u.aggregatedSigKey.isEmpty && wfDelta u.delta &&
    (if u.header.flags &&& 1 ≠ 0 then
      u.reveals.length ≤ 255 && u.reveals.all wfReveal
     else
      match u.reveals with
      | [r] => wfSingleReveal r
      | _ => false)

/-- Well-formed DEACTIVATE: as for UPDATE, without commitment and delta. -/
def wfDeactivate (d : CompactDeactivate) : Bool :=
  d.header.version == 2 && d.header.operation == 4 && d.header.flags < 256 &&
    d.didSuffix.length == 32 &&
    (if d.header.flags &&& 1 ≠ 0 then
      d.reveals.length ≤ 255 && d.reveals.all wfReveal
     else
      match d.reveals with
      | [r] => wfSingleReveal r
      | _ => false)

/-- Well-formed CREATE: compact version and CREATE op type, 32-byte hash
and commitments, byte-valued threshold parameters when flagged (zero
otherwise), and well-formed key and service lists within the count bytes. -/
def wfCreate (c : CompactCreate) : Bool :=
  c.header.version == 2 && c.header.operation == 1 && c.header.flags < 256 &&
    c.suffixDataHash.length == 32 && c.updateCommitment.length == 32 &&
    c.recoveryCommitment.length == 32 &&
    (if c.header.flags &&& 1 ≠ 0 then
      c.updateThreshold < 256 && c.updateControllerCount < 256 &&
        c.recoveryThreshold < 256 && c.recoveryControllerCount < 256
     else
      c.updateThreshold == 0 && c.updateControllerCount == 0 &&
        c.recoveryThreshold == 0 && c.recoveryControllerCount == 0) &&
    c.publicKeys.length ≤ 255 && c.publicKeys.all wfPublicKey &&
    c.services.length ≤ 255 && c.services.all wfService

theorem rBytes_exact (bs rest : Bytes) : rBytes bs.length (bs ++ rest) = some (bs, rest) := by
  simp [rBytes]

theorem rString_wString {s out : Bytes} (h : wString s = some out) (rest : Bytes) :
    rString (out ++ rest) = some (s, rest) := by
  unfold wString at h
  split at h
  · exact absurd h (by simp)
  · cases h
    simpa [rString, rByte] using rBytes_exact s rest

theorem rLongString_wLongString {s out : Bytes} (h : wLongString s = some out) (rest : Bytes) :
    rLongString (out ++ rest) = some (s, rest) := by
  unfold wLongString at h
  split at h
  · exact absurd h (by simp)
  · cases h
    have : s.length / 256 * 256 + s.length % 256 = s.length := by omega
    simpa [rLongString, rU16, rByte, this] using rBytes_exact s rest

theorem rBytes_of_len {bs : Bytes} {n : Nat} (h : bs.length = n) (rest : Bytes) :
    rBytes n (bs ++ rest) = some (bs, rest) := by
  subst h; exact rBytes_exact bs rest

theorem rPublicKey_wPublicKey {pk : CompactPublicKey} {out : Bytes}
    (hwf : wfPublicKey pk = true) (h : wPublicKey pk = some out) (rest : Bytes) :
    rPublicKey (out ++ rest) = some (pk, rest) := by
  obtain ⟨id, kt, kb, purp⟩ := pk
  unfold wPublicKey at h
  rcases hid : wString id with _ | idb <;> rw [hid] at h
  · exact absurd h (by simp)
  simp only [Option.some.injEq] at h
  subst h
  unfold wfPublicKey at hwf
  rcases hks : keySizes kt with _ | ⟨psz, ssz⟩ <;> rw [hks] at hwf
  · simp at hwf
  simp only [Bool.and_eq_true, beq_iff_eq, decide_eq_true_eq] at hwf
  obtain ⟨-, hlen⟩ := hwf
  unfold rPublicKey
  rw [List.append_assoc]
  rw [rString_wString hid]
  simp only [Option.bind_eq_bind, Option.some_bind, List.cons_append, rByte, hks,
    List.append_assoc]
  rw [rBytes_of_len hlen]
  simp only [Option.some_bind, rByte, List.cons_append]
  rfl

theorem rService_wService {svc : CompactService} {out : Bytes}
    (h : wService svc = some out) (rest : Bytes) :
    rService (out ++ rest) = some (svc, rest) := by
  obtain ⟨id, ty, ep⟩ := svc
  unfold wService at h
  rcases ha : wString id with _ | ab <;> rw [ha] at h
  · exact absurd h (by simp)
  rcases hb : wString ty with _ | bb <;> rw [hb] at h
  · exact absurd h (by simp)
  rcases hc : wLongString ep with _ | cb <;> rw [hc] at h
  · exact absurd h (by simp)
  cases h
  unfold rService
  rw [List.append_assoc, List.append_assoc]
  rw [rString_wString ha]
  simp only [Option.bind_eq_bind, Option.some_bind]
  rw [rString_wString hb, Option.some_bind, rLongString_wLongString hc, Option.some_bind]
  rfl

theorem rList_rBytes32 {sibs : List Bytes} (hl : ∀ s ∈ sibs, s.length = 32) (rest : Bytes) :
    rList (rBytes 32) sibs.length (sibs.flatten ++ rest) = some (sibs, rest) := by
  induction sibs with
  | nil => simp [rList]
  | cons s ss ih =>
    have hs : rBytes 32 (s ++ (ss.flatten ++ rest)) = some (s, ss.flatten ++ rest) :=
      rBytes_of_len (hl s (by simp)) _
    simp only [List.length_cons, List.flatten_cons, List.append_assoc]
    unfold rList
    rw [hs]
    simp only [Option.bind_eq_bind, Option.some_bind]
    rw [ih fun x hx => hl x (by simp [hx])]
    rfl

theorem rReveal_wReveal {r : CompactReveal} {out : Bytes}
    (hwf : wfReveal r = true) (h : wReveal r = some out) (rest : Bytes) :
    rReveal (out ++ rest) = some (r, rest) := by
  obtain ⟨idx, kt, pk, depth, sibs, sig⟩ := r
  unfold wReveal at h
  split at h
  swap
  · exact absurd h (by simp)
  cases h
  unfold wfReveal at hwf
  rcases hks : keySizes kt with _ | ⟨psz, ssz⟩ <;> rw [hks] at hwf
  · simp at hwf
  simp only [Bool.and_eq_true, beq_iff_eq, decide_eq_true_eq, List.all_eq_true] at hwf
  obtain ⟨⟨⟨⟨-, hdep⟩, -⟩, hsib⟩, hpk, hsig⟩ := hwf
  unfold rReveal
  simp only [rByte, List.cons_append, Option.bind_eq_bind, Option.some_bind,
    List.append_assoc]
  rw [hks, Option.some_bind, rBytes_of_len hpk]
  simp only [Option.some_bind, rByte, List.cons_append]
  rw [hdep, rList_rBytes32 (fun s hs => by simpa using hsib s hs)]
  simp only [Option.some_bind]
  rw [rBytes_of_len hsig]
  simp [← hdep]

theorem rList_wList {α : Type} {w : α → Option Bytes} {r : Bytes → Option (α × Bytes)}
    {xs : List α} {out : Bytes}
    (hstep : ∀ x ∈ xs, ∀ o rest, w x = some o → r (o ++ rest) = some (x, rest))
    (h : wList w xs = some out) (rest : Bytes) :
    rList r xs.length (out ++ rest) = some (xs, rest) := by
  induction xs generalizing out with
  | nil => cases h; simp [rList]
  | cons x xs ih =>
    unfold wList at h
    rcases hx : w x with _ | xb <;> rw [hx] at h
    · exact absurd h (by simp)
    rcases hxs : wList w xs with _ | xsb <;> rw [hxs] at h
    · simp at h
    simp only [Option.bind_eq_bind, Option.some_bind, Option.pure_def,
      Option.some.injEq] at h
    cases h
    simp only [List.length_cons]
    unfold rList
    rw [List.append_assoc, hstep x (by simp) xb _ hx]
    simp only [Option.bind_eq_bind, Option.some_bind]
    rw [ih (fun y hy => hstep y (by simp [hy])) hxs]
    rfl

theorem rPatch_wPatch {p : CompactPatch} {out : Bytes}
    (hwf : wfPatch p = true) (h : wPatch p = some out) (rest : Bytes) :
    rPatch (out ++ rest) = some (p, rest) := by
  obtain ⟨pt, pks, kids, svcs, sids⟩ := p
  match pt with
  | 0 => exact absurd hwf (by simp [wfPatch])
  | 1 =>
    simp only [wfPatch] at hwf
    simp only [wPatch] at h
    rcases hl : wList wPublicKey pks with _ | lb <;> rw [hl] at h
    · exact absurd h (by simp)
    simp only [Option.some.injEq] at h
    subst h
    simp only [Bool.and_eq_true, List.all_eq_true, List.isEmpty_iff,
      decide_eq_true_eq] at hwf
    obtain ⟨⟨⟨⟨hle, hall⟩, hk⟩, hs⟩, hsi⟩ := hwf
    subst hk hs hsi
    unfold rPatch
    simp only [rByte, List.cons_append, Option.bind_eq_bind, Option.some_bind]
    rw [Nat.mod_eq_of_lt (by omega)]
    rw [rList_wList (fun x hx o r ho => rPublicKey_wPublicKey (hall x hx) ho r) hl]
    rfl
  | 2 =>
    simp only [wfPatch] at hwf
    simp only [wPatch] at h
    rcases hl : wList wString kids with _ | lb <;> rw [hl] at h
    · exact absurd h (by simp)
    simp only [Option.some.injEq] at h
    subst h
    simp only [Bool.and_eq_true, List.all_eq_true, List.isEmpty_iff,
      decide_eq_true_eq] at hwf
    obtain ⟨⟨⟨⟨hle, hall⟩, hk⟩, hs⟩, hsi⟩ := hwf
    subst hk hs hsi
    unfold rPatch
    simp only [rByte, List.cons_append, Option.bind_eq_bind, Option.some_bind]
    rw [Nat.mod_eq_of_lt (by omega)]
    rw [rList_wList (fun x hx o r ho => rString_wString ho r) hl]
    rfl
  | 3 =>
    simp only [wfPatch] at hwf
    simp only [wPatch] at h
    rcases hl : wList wService svcs with _ | lb <;> rw [hl] at h
    · exact absurd h (by simp)
    simp only [Option.some.injEq] at h
    subst h
    simp only [Bool.and_eq_true, List.all_eq_true, List.isEmpty_iff,
      decide_eq_true_eq] at hwf
    obtain ⟨⟨⟨⟨hle, hall⟩, hk⟩, hs⟩, hsi⟩ := hwf
    subst hk hs hsi
    unfold rPatch
    simp only [rByte, List.cons_append, Option.bind_eq_bind, Option.some_bind]
    rw [Nat.mod_eq_of_lt (by omega)]
    rw [rList_wList (fun x hx o r ho => rService_wService ho r) hl]
    rfl
  | 4 =>
    simp only [wfPatch] at hwf
    simp only [wPatch] at h
    rcases hl : wList wString sids with _ | lb <;> rw [hl] at h
    · exact absurd h (by simp)
    simp only [Option.some.injEq] at h
    subst h
    simp only [Bool.and_eq_true, List.all_eq_true, List.isEmpty_iff,
      decide_eq_true_eq] at hwf
    obtain ⟨⟨⟨⟨hle, hall⟩, hk⟩, hs⟩, hsi⟩ := hwf
    subst hk hs hsi
    unfold rPatch
    simp only [rByte, List.cons_append, Option.bind_eq_bind, Option.some_bind]
    rw [Nat.mod_eq_of_lt (by omega)]
    rw [rList_wList (fun x hx o r ho => rString_wString ho r) hl]
    rfl
  | (n + 5) => exact absurd hwf (by simp [wfPatch])

theorem rDelta_wDelta {d : CompactDelta} {out : Bytes}
    (hwf : wfDelta d = true) (h : wDelta d = some out) (rest : Bytes) :
    rDelta (out ++ rest) = some (d, rest) := by
  obtain ⟨ps⟩ := d
  unfold wDelta at h
  rcases hl : wList wPatch ps with _ | lb <;> rw [hl] at h
  · exact absurd h (by simp)
  simp only [Option.some.injEq] at h
  subst h
  unfold wfDelta at hwf
  simp only [Bool.and_eq_true, List.all_eq_true, decide_eq_true_eq] at hwf
  obtain ⟨hle, hall⟩ := hwf
  unfold rDelta
  simp only [rByte, List.cons_append, Option.bind_eq_bind, Option.some_bind]
  rw [Nat.mod_eq_of_lt (by omega)]
  rw [rList_wList (fun x hx o r ho => rPatch_wPatch (hall x hx) ho r) hl]
  rfl

theorem keySizes_psz_ge {kt psz ssz : Nat} (h : keySizes kt = some (psz, ssz)) :
    32 ≤ psz := by
  unfold keySizes at h
  split at h
  · cases h; omega
  split at h
  · cases h; omega
  split at h
  · cases h; omega
  split at h
  · cases h; omega
  · cases h

theorem computeRevealValue_len {pk : Bytes} (h : 32 ≤ pk.length) :
    (computeRevealValue pk).length = 32 := by
  simp [computeRevealValue]
  omega

/-- Decoding the encoding of a well-formed UPDATE recovers the operation. -/
theorem decodeUpdate_encodeUpdate {u : CompactUpdate} {out : Bytes}
    (hwf : wfUpdate u = true) (h : encodeUpdate u = some out) :
    decodeUpdate out = some u := by
  obtain ⟨⟨v, op, fl⟩, suffix, reveals, commit, delta, agg⟩ := u
  unfold wfUpdate at hwf
  simp only [Bool.and_eq_true, beq_iff_eq, decide_eq_true_eq, List.isEmpty_iff] at hwf
  obtain ⟨⟨⟨⟨⟨⟨⟨hv, hop⟩, hfl⟩, hsuf⟩, hcom⟩, hagg⟩, hwfd⟩, hrev⟩ := hwf
  subst hv hop hagg
  simp only [encodeUpdate, Option.bind_eq_bind] at h
  by_cases hth : fl &&& 1 ≠ 0
  · rw [if_pos hth] at hrev
    simp only [Bool.and_eq_true, List.all_eq_true, decide_eq_true_eq] at hrev
    obtain ⟨hlen, hall⟩ := hrev
    rw [if_pos hth] at h
    rcases hrb : wList wReveal reveals with _ | rb <;> rw [hrb] at h
    · exact absurd h (by simp)
    rcases hdb : wDelta delta with _ | db <;> rw [hdb] at h
    · exact absurd h (by simp)
    simp only [Option.bind_eq_bind, Option.some_bind, Option.pure_def,
      Option.some.injEq] at h
    subst h
    unfold decodeUpdate
    simp only [rByte, List.cons_append, List.nil_append, List.append_assoc,
      Option.bind_eq_bind, Option.some_bind, eq_self_iff_true, and_self, if_true]
    rw [rBytes_of_len hsuf]
    simp only [Option.some_bind]
    rw [if_pos hth]
    try simp only [rByte, Option.some_bind]
    rw [Nat.mod_eq_of_lt (by omega)]
    rw [rList_wList (fun x hx o r ho => rReveal_wReveal (hall x hx) ho r) hrb]
    simp only [Option.some_bind]
    rw [rBytes_of_len hcom]
    simp only [Option.some_bind]
    have hd := rDelta_wDelta hwfd hdb []
    rw [List.append_nil] at hd
    rw [hd]
    rfl
  · rw [if_neg hth] at hrev
    rcases reveals with _ | ⟨r, rs⟩
    · exact absurd hrev (by simp)
    rcases rs with _ | ⟨r2, rs⟩
    swap
    · exact absurd hrev (by simp)
    obtain ⟨idx, kt, pk, depth, sibs, sig⟩ := r
    simp only [wfSingleReveal] at hrev
    rcases hks : keySizes kt with _ | ⟨psz, ssz⟩ <;> rw [hks] at hrev
    · simp at hrev
    simp only [Bool.and_eq_true, beq_iff_eq, decide_eq_true_eq,
      List.isEmpty_iff] at hrev
    obtain ⟨⟨⟨hidx, hdep⟩, hsib⟩, hpk, hsig⟩ := hrev
    subst hidx hdep hsib
    rw [if_neg hth] at h
    rcases hdb : wDelta delta with _ | db <;> rw [hdb] at h
    · exact absurd h (by simp)
    simp only [Option.bind_eq_bind, Option.some_bind, Option.pure_def,
      Option.some.injEq] at h
    subst h
    unfold decodeUpdate
    simp only [rByte, List.cons_append, List.nil_append, List.append_assoc,
      Option.bind_eq_bind, Option.some_bind, eq_self_iff_true, and_self, if_true]
    rw [rBytes_of_len hsuf]
    simp only [Option.some_bind]
    rw [if_neg hth]
    try simp only [rByte, Option.some_bind]
    rw [rBytes_of_len (computeRevealValue_len (hpk ▸ keySizes_psz_ge hks))]
    simp only [Option.some_bind, rByte, List.cons_append]
    rw [hks]
    simp only [Option.some_bind]
    rw [rBytes_of_len hpk]
    simp only [Option.some_bind]
    rw [rBytes_of_len hsig]
    simp only [Option.some_bind]
    rw [rBytes_of_len hcom]
    simp only [Option.some_bind]
    have hd := rDelta_wDelta hwfd hdb []
    rw [List.append_nil] at hd
    rw [hd]
    rfl

/-- Decoding the encoding of a well-formed DEACTIVATE recovers the operation. -/
theorem decodeDeactivate_encodeDeactivate {d : CompactDeactivate} {out : Bytes}
    (hwf : wfDeactivate d = true) (h : encodeDeactivate d = some out) :
    decodeDeactivate out = some d := by
  obtain ⟨⟨v, op, fl⟩, suffix, reveals⟩ := d
  unfold wfDeactivate at hwf
  simp only [Bool.and_eq_true, beq_iff_eq, decide_eq_true_eq] at hwf
  obtain ⟨⟨⟨⟨hv, hop⟩, hfl⟩, hsuf⟩, hrev⟩ := hwf
  subst hv hop
  simp only [encodeDeactivate, Option.bind_eq_bind] at h
  by_cases hth : fl &&& 1 ≠ 0
  · rw [if_pos hth] at hrev
    simp only [Bool.and_eq_true, List.all_eq_true, decide_eq_true_eq] at hrev
    obtain ⟨hlen, hall⟩ := hrev
    rw [if_pos hth] at h
    rcases hrb : wList wReveal reveals with _ | rb <;> rw [hrb] at h
    · exact absurd h (by simp)
    simp only [Option.bind_eq_bind, Option.some_bind, Option.pure_def,
      Option.some.injEq] at h
    subst h
    unfold decodeDeactivate
    simp only [rByte, List.cons_append, List.nil_append, List.append_assoc,
      Option.bind_eq_bind, Option.some_bind, eq_self_iff_true, and_self, if_true]
    rw [rBytes_of_len hsuf]
    simp only [Option.some_bind]
    rw [if_pos hth]
    try simp only [rByte, Option.some_bind]
    rw [Nat.mod_eq_of_lt (by omega)]
    have hr := rList_wList (fun x hx o r ho => rReveal_wReveal (hall x hx) ho r) hrb []
    rw [List.append_nil] at hr
    rw [hr]
    rfl
  · rw [if_neg hth] at hrev
    rcases reveals with _ | ⟨r, rs⟩
    · exact absurd hrev (by simp)
    rcases rs with _ | ⟨r2, rs⟩
    swap
    · exact absurd hrev (by simp)
    obtain ⟨idx, kt, pk, depth, sibs, sig⟩ := r
    simp only [wfSingleReveal] at hrev
    rcases hks : keySizes kt with _ | ⟨psz, ssz⟩ <;> rw [hks] at hrev
    · simp at hrev
    simp only [Bool.and_eq_true, beq_iff_eq, decide_eq_true_eq,
      List.isEmpty_iff] at hrev
    obtain ⟨⟨⟨hidx, hdep⟩, hsib⟩, hpk, hsig⟩ := hrev
    subst hidx hdep hsib
    rw [if_neg hth] at h
    simp only [Option.bind_eq_bind, Option.some_bind, Option.pure_def,
      Option.some.injEq] at h
    subst h
    unfold decodeDeactivate
    simp only [rByte, List.cons_append, List.nil_append, List.append_assoc,
      Option.bind_eq_bind, Option.some_bind, eq_self_iff_true, and_self, if_true]
    rw [rBytes_of_len hsuf]
    simp only [Option.some_bind]
    rw [if_neg hth]
    try simp only [rByte, Option.some_bind]
    rw [rBytes_of_len (computeRevealValue_len (hpk ▸ keySizes_psz_ge hks))]
    simp only [Option.some_bind, rByte, List.cons_append]
    rw [hks]
    simp only [Option.some_bind]
    rw [rBytes_of_len hpk]
    simp only [Option.some_bind]
    have hs := rBytes_of_len hsig ([] : Bytes)
    rw [List.append_nil] at hs
    rw [hs]
    rfl

theorem wString_isSome {s : Bytes} (h : s.length ≤ 255) : ∃ o, wString s = some o :=
  Option.ne_none_iff_exists'.mp (by rw [wString, if_neg (by omega)]; simp)

theorem wLongString_isSome {s : Bytes} (h : s.length ≤ 65535) :
    ∃ o, wLongString s = some o :=
  Option.ne_none_iff_exists'.mp (by rw [wLongString, if_neg (by omega)]; simp)

theorem wPublicKey_isSome {pk : CompactPublicKey} (h : wfPublicKey pk = true) :
    ∃ o, wPublicKey pk = some o := by
  unfold wfPublicKey at h
  have hid : pk.id.length ≤ 255 := by
    rcases keySizes pk.keyType with _ | _ <;> simp_all
  obtain ⟨o, ho⟩ := wString_isSome hid
  exact Option.ne_none_iff_exists'.mp (by rw [wPublicKey, ho]; simp)

theorem wService_isSome {svc : CompactService} (h : wfService svc = true) :
    ∃ o, wService svc = some o := by
  unfold wfService at h
  simp only [Bool.and_eq_true, decide_eq_true_eq] at h
  obtain ⟨⟨h1, h2⟩, h3⟩ := h
  obtain ⟨o1, ho1⟩ := wString_isSome h1
  obtain ⟨o2, ho2⟩ := wString_isSome h2
  obtain ⟨o3, ho3⟩ := wLongString_isSome h3
  exact Option.ne_none_iff_exists'.mp (by rw [wService]; rw [ho1, ho2, ho3]; simp)

theorem wReveal_isSome {r : CompactReveal} (h : wfReveal r = true) :
    ∃ o, wReveal r = some o := by
  unfold wfReveal at h
  have hsib : r.merkleSiblings.all (fun s => s.length = 32) = true := by
    rcases keySizes r.keyType with _ | _ <;> simp_all
  exact Option.ne_none_iff_exists'.mp (by rw [wReveal, if_pos hsib]; simp)

theorem wList_isSome {α : Type} {w : α → Option Bytes} {xs : List α}
    (h : ∀ x ∈ xs, ∃ o, w x = some o) : ∃ o, wList w xs = some o := by
  induction xs with
  | nil => exact ⟨[], rfl⟩
  | cons x xs ih =>
    obtain ⟨o, ho⟩ := h x (by simp)
    obtain ⟨os, hos⟩ := ih fun y hy => h y (by simp [hy])
    exact Option.ne_none_iff_exists'.mp (by rw [wList]; rw [ho, hos]; simp)

theorem wPatch_isSome {p : CompactPatch} (h : wfPatch p = true) :
    ∃ o, wPatch p = some o := by
  obtain ⟨pt, pks, kids, svcs, sids⟩ := p
  match pt with
  | 0 => exact absurd h (by simp [wfPatch])
  | 1 =>
    simp only [wfPatch, Bool.and_eq_true, List.all_eq_true] at h
    obtain ⟨os, hos⟩ := wList_isSome fun x hx => wPublicKey_isSome (h.1.1.1.2 x hx)
    exact Option.ne_none_iff_exists'.mp (by rw [wPatch]; rw [hos]; simp)
  | 2 =>
    simp only [wfPatch, Bool.and_eq_true, List.all_eq_true, decide_eq_true_eq] at h
    obtain ⟨os, hos⟩ := wList_isSome fun x hx => wString_isSome (h.1.1.1.2 x hx)
    exact Option.ne_none_iff_exists'.mp (by rw [wPatch]; rw [hos]; simp)
  | 3 =>
    simp only [wfPatch, Bool.and_eq_true, List.all_eq_true] at h
    obtain ⟨os, hos⟩ := wList_isSome fun x hx => wService_isSome (h.1.1.1.2 x hx)
    exact Option.ne_none_iff_exists'.mp (by rw [wPatch]; rw [hos]; simp)
  | 4 =>
    simp only [wfPatch, Bool.and_eq_true, List.all_eq_true, decide_eq_true_eq] at h
    obtain ⟨os, hos⟩ := wList_isSome fun x hx => wString_isSome (h.1.1.1.2 x hx)
    exact Option.ne_none_iff_exists'.mp (by rw [wPatch]; rw [hos]; simp)
  | (n + 5) => exact absurd h (by simp [wfPatch])

theorem wDelta_isSome {d : CompactDelta} (h : wfDelta d = true) :
    ∃ o, wDelta d = some o := by
  unfold wfDelta at h
  simp only [Bool.and_eq_true, List.all_eq_true] at h
  obtain ⟨os, hos⟩ := wList_isSome fun x hx => wPatch_isSome (h.2 x hx)
  exact Option.ne_none_iff_exists'.mp (by rw [wDelta]; rw [hos]; simp)

theorem encodeUpdate_isSome {u : CompactUpdate} (h : wfUpdate u = true) :
    ∃ o, encodeUpdate u = some o := by
  have hwfd : wfDelta u.delta = true := by
    unfold wfUpdate at h
    simp only [Bool.and_eq_true] at h
    exact h.1.2
  obtain ⟨db, hdb⟩ := wDelta_isSome hwfd
  by_cases hth : u.header.flags &&& 1 ≠ 0
  · have hall : ∀ r ∈ u.reveals, wfReveal r = true := by
      unfold wfUpdate at h
      rw [if_pos hth] at h
      simp only [Bool.and_eq_true, List.all_eq_true] at h
      exact h.2.2
    obtain ⟨rb, hrb⟩ := wList_isSome fun r hr => wReveal_isSome (hall r hr)
    have hth2 : u.header.flags % 2 = 1 := by
      rw [Nat.and_one_is_mod] at hth; omega
    exact Option.ne_none_iff_exists'.mp (by simp [encodeUpdate, hth2, hrb, hdb])
  · have hone : ∃ r, u.reveals = [r] := by
      unfold wfUpdate at h
      rw [if_neg hth] at h
      simp only [Bool.and_eq_true] at h
      rcases hr : u.reveals with _ | ⟨r, rs⟩
      · rw [hr] at h; exact absurd h.2 (by simp)
      rcases rs with _ | _
      · exact ⟨r, rfl⟩
      · rw [hr] at h; exact absurd h.2 (by simp)
    obtain ⟨r, hr⟩ := hone
    have hth2 : ¬u.header.flags % 2 = 1 := by
      rw [Nat.and_one_is_mod] at hth; omega
    exact Option.ne_none_iff_exists'.mp (by simp [encodeUpdate, hth2, hr, hdb])

theorem encodeDeactivate_isSome {d : CompactDeactivate} (h : wfDeactivate d = true) :
    ∃ o, encodeDeactivate d = some o := by
  by_cases hth : d.header.flags &&& 1 ≠ 0
  · have hall : ∀ r ∈ d.reveals, wfReveal r = true := by
      unfold wfDeactivate at h
      rw [if_pos hth] at h
      simp only [Bool.and_eq_true, List.all_eq_true] at h
      exact h.2.2
    obtain ⟨rb, hrb⟩ := wList_isSome fun r hr => wReveal_isSome (hall r hr)
    have hth2 : d.header.flags % 2 = 1 := by
      rw [Nat.and_one_is_mod] at hth; omega
    exact Option.ne_none_iff_exists'.mp (by simp [encodeDeactivate, hth2, hrb])
  · have hone : ∃ r, d.reveals = [r] := by
      unfold wfDeactivate at h
      rw [if_neg hth] at h
      simp only [Bool.and_eq_true] at h
      rcases hr : d.reveals with _ | ⟨r, rs⟩
      · rw [hr] at h; exact absurd h.2 (by simp)
      rcases rs with _ | _
      · exact ⟨r, rfl⟩
      · rw [hr] at h; exact absurd h.2 (by simp)
    obtain ⟨r, hr⟩ := hone
    have hth2 : ¬d.header.flags % 2 = 1 := by
      rw [Nat.and_one_is_mod] at hth; omega
    exact Option.ne_none_iff_exists'.mp (by simp [encodeDeactivate, hth2, hr])

/-- Decoding the encoding of a well-formed CREATE recovers the operation. -/
theorem decodeCreate_encodeCreate {c : CompactCreate} {out : Bytes}
    (hwf : wfCreate c = true) (h : encodeCreate c = some out) :
    decodeCreate out = some c := by
  obtain ⟨⟨v, op, fl⟩, sfx, uc, rc, ut, un, rt, rn, pks, svcs⟩ := c
  unfold wfCreate at hwf
  simp only [Bool.and_eq_true, beq_iff_eq, decide_eq_true_eq, List.all_eq_true] at hwf
  obtain ⟨⟨⟨⟨⟨⟨⟨⟨⟨⟨hv, hop⟩, hfl⟩, hsfx⟩, huc⟩, hrc⟩, hth⟩, hkc⟩, hka⟩, hsc⟩, hsa⟩ := hwf
  subst hv hop
  simp only [encodeCreate, Option.bind_eq_bind] at h
  rcases hkb : wList wPublicKey pks with _ | kb <;> rw [hkb] at h
  · exact absurd h (by simp)
  rcases hsb : wList wService svcs with _ | sb <;> rw [hsb] at h
  · exact absurd h (by simp)
  simp only [Option.some_bind, Option.pure_def, Option.some.injEq] at h
  subst h
  unfold decodeCreate
  by_cases hthf : fl &&& 1 ≠ 0
  · rw [if_pos hthf] at hth
    rw [if_pos hthf]
    simp only [List.cons_append, List.nil_append, List.append_assoc]
    rw [rHeader_cons]
    simp only [Option.bind_eq_bind, Option.some_bind]
    rw [if_pos (by simp)]
    rw [rBytes_of_len hsfx]
    simp only [Option.some_bind]
    rw [rBytes_of_len huc]
    simp only [Option.some_bind]
    rw [rBytes_of_len hrc]
    simp only [Option.some_bind]
    rw [rThreshold4_pos hthf]
    simp only [Option.some_bind, rByte, List.cons_append]
    rw [Nat.mod_eq_of_lt (by omega)]
    rw [rList_wList (fun x hx o r ho => rPublicKey_wPublicKey (hka x hx) ho r) hkb]
    simp only [Option.some_bind, rByte]
    rw [Nat.mod_eq_of_lt (by omega)]
    have hs := rList_wList (fun x hx o r ho => rService_wService ho r) hsb ([] : Bytes)
    rw [List.append_nil] at hs
    rw [hs]
    rfl
  · rw [if_neg hthf] at hth
    simp only [Bool.and_eq_true, beq_iff_eq] at hth
    obtain ⟨⟨⟨hut, hun⟩, hrt⟩, hrn⟩ := hth
    subst hut hun hrt hrn
    rw [if_neg hthf]
    simp only [List.cons_append, List.nil_append, List.append_assoc]
    rw [rHeader_cons]
    simp only [Option.bind_eq_bind, Option.some_bind]
    rw [if_pos (by simp)]
    rw [rBytes_of_len hsfx]
    simp only [Option.some_bind]
    rw [rBytes_of_len huc]
    simp only [Option.some_bind]
    rw [rBytes_of_len hrc]
    simp only [Option.some_bind]
    rw [rThreshold4_neg hthf]
    simp only [Option.some_bind, rByte, List.cons_append]
    rw [Nat.mod_eq_of_lt (by omega)]
    rw [rList_wList (fun x hx o r ho => rPublicKey_wPublicKey (hka x hx) ho r) hkb]
    simp only [Option.some_bind, rByte]
    rw [Nat.mod_eq_of_lt (by omega)]
    have hs := rList_wList (fun x hx o r ho => rService_wService ho r) hsb ([] : Bytes)
    rw [List.append_nil] at hs
    rw [hs]
    rfl

theorem encodeCreate_isSome {c : CompactCreate} (h : wfCreate c = true) :
    ∃ o, encodeCreate c = some o := by
  unfold wfCreate at h
  simp only [Bool.and_eq_true, List.all_eq_true] at h
  obtain ⟨kb, hkb⟩ := wList_isSome fun x hx => wPublicKey_isSome (h.1.1.2 x hx)
  obtain ⟨sb, hsb⟩ := wList_isSome fun x hx => wService_isSome (h.2 x hx)
  exact Option.ne_none_iff_exists'.mp (by simp [encodeCreate, hkb, hsb])

/-! ## DID documents and operations (`pkg/did`)

Go strings are byte strings, so every `string` field is `Bytes`.  JSON
(de)serialization and signature verification are abstracted into an `Env`
of deterministic functions; everything else is concrete. -/

/-- `keys.JWK`. -/
structure JWK where
  id : Bytes
  kty : Bytes
  crv : Bytes
  alg : Bytes
  x : Bytes
  y : Bytes
  d : Bytes
deriving Repr, DecidableEq

/-- The public-only copy of a JWK built by `VerifyKeyMatchesReveal` (the
private `d` component is omitted). -/
def pubJWK (j : JWK) : JWK := ⟨j.id, j.kty, j.crv, j.alg, j.x, j.y, []⟩

/-- `did.PublicKey` (document entry). -/
structure PublicKey where
  id : Bytes
  pkType : Bytes
  controller : Bytes
  publicKeyJwk : Option JWK
deriving Repr, DecidableEq

/-- `did.Service` (document entry). -/
structure Service where
  id : Bytes
  svcType : Bytes
  serviceEndpoint : Bytes
deriving Repr, DecidableEq

/-- `did.Document`. -/
structure Document where
  context : List Bytes
  id : Bytes
  publicKeys : List PublicKey
  authentication : List Bytes
  services : List Service
deriving Repr, DecidableEq

/-- `did.NewDocument`. -/
def newDocument (did : Bytes) : Document :=
  ⟨[ascii "https://www.w3.org/ns/did/v1"], did, [], [], []⟩

/-- `Document.AddPublicKey`. -/
def addPublicKey (doc : Document) (pk : PublicKey) : Document :=
  { doc with publicKeys := doc.publicKeys ++ [pk] }

/-- `Document.AddService`. -/
def addService (doc : Document) (svc : Service) : Document :=
  { doc with services := doc.services ++ [svc] }

/-- `Document.RemovePublicKey`: filters the key list and the
authentication references. -/
def removePublicKey (doc : Document) (keyID : Bytes) : Document :=
  { doc with publicKeys := doc.publicKeys.filter fun pk => ¬(pk.id == keyID),
             authentication := doc.authentication.filter fun a => ¬(a == keyID) }

/-- `Document.RemoveService`. -/
def removeService (doc : Document) (serviceID : Bytes) : Document :=
  { doc with services := doc.services.filter fun svc => ¬(svc.id == serviceID) }

/-- `did.Patch` (JSON patch in an update delta). -/
structure Patch where
  action : Bytes
  publicKeys : List PublicKey
  publicKeyIDs : List Bytes
  services : List Service
  serviceIDs : List Bytes
deriving Repr, DecidableEq

/-- `did.Delta`. -/
structure Delta where
  patches : List Patch
  updateCommitment : Bytes
deriving Repr, DecidableEq

/-- `did.UpdateSignedData`. -/
structure UpdateSignedData where
  updateKey : JWK
  deltaHash : Bytes
deriving Repr, DecidableEq

/-- `did.CreateOperation`. -/
structure CreateOperation where
  ty : Bytes
  initialDocument : Option Document
  updateCommitment : Bytes
  recoveryCommitment : Bytes
deriving Repr, DecidableEq

/-- `did.UpdateOperation`. -/
structure UpdateOperation where
  ty : Bytes
  did : Bytes
  revealValue : Bytes
  signedData : Bytes
  delta : Delta
deriving Repr, DecidableEq

/-- `did.RecoverSignedData`. -/
structure RecoverSignedData where
  recoveryKey : JWK
  deltaHash : Bytes
  recoveryCommitment : Bytes
deriving Repr, DecidableEq

/-- `did.RecoverDelta`. -/
structure RecoverDelta where
  patches : List Patch
  updateCommitment : Bytes
deriving Repr, DecidableEq

/-- `did.RecoverOperation`. -/
structure RecoverOperation where
  ty : Bytes
  did : Bytes
  revealValue : Bytes
  signedData : Bytes
  delta : RecoverDelta
deriving Repr, DecidableEq

/-- `did.DeactivateSignedData`. -/
structure DeactivateSignedData where
  recoveryKey : JWK
  didSuffix : Bytes
deriving Repr, DecidableEq

/-- `did.DeactivateOperation`. -/
structure DeactivateOperation where
  ty : Bytes
  did : Bytes
  revealValue : Bytes
  signedData : Bytes
deriving Repr, DecidableEq

/-- The abstracted helpers the processor calls: `encoding/json`
(un)marshalling of the operation and document shapes, and
`signing.NewVerifierFromJWK` / `Verifier.Verify`.  Each is an arbitrary
but fixed function, shared by every processor running the same code. -/
structure Env where
  parseCreate : Bytes → Option CreateOperation
  parseUpdate : Bytes → Option UpdateOperation
  parseRecover : Bytes → Option RecoverOperation
  parseDeactivate : Bytes → Option DeactivateOperation
  parseDoc : Bytes → Option Document
  marshalDoc : Document → Bytes
  marshalDocOpt : Option Document → Bytes
  marshalDelta : Delta → Bytes
  marshalRecoverDelta : RecoverDelta → Bytes
  parseUpdateSigned : Bytes → Option UpdateSignedData
  parseRecoverSigned : Bytes → Option RecoverSignedData
  parseDeactivateSigned : Bytes → Option DeactivateSignedData
  marshalJWK : JWK → Bytes
  verifierOk : JWK → Bool
  verify : JWK → Bytes → Bytes → Bool

/-! ## Commitments and suffixes (`pkg/did/commitment.go`, `pkg/did/suffix.go`) -/

/-- `did.VerifyReveal`: decode the reveal, hash it, compare to the
commitment. -/
def verifyReveal (revealValue expectedCommitment : Bytes) : Bool :=
  match b64decode revealValue with
  | none => false
  | some revealBytes => hashToB64 revealBytes == expectedCommitment

/-- `did.VerifyKeyMatchesReveal`: the public-only JWK must hash to the
reveal value (serialization abstracted into the environment). -/
def verifyKeyMatchesReveal (env : Env) (j : JWK) (revealValue : Bytes) : Bool :=
  hashToB64 (env.marshalJWK (pubJWK j)) == revealValue

/-- `did.GenerateCommitment` from the point where the authoring public key
has been serialized to canonical JWK JSON bytes.  Returns
`(commitment, revealValue)`. -/
def generateCommitment (jwkBytes : Bytes) : Bytes × Bytes :=
  let revealValue := hashToB64 jwkBytes
  let revealBytes := (b64decode revealValue).getD []
  (hashToB64 revealBytes, revealValue)

/-- `did.DIDPrefix`. -/
def didPrefix : Bytes := ascii "did:char:"

/-- `did.GenerateDIDSuffix` from the point where the initial state has
been marshalled to canonical JSON. -/
def generateDIDSuffix (canonical : Bytes) : Bytes := hashToB64 canonical

/-- `did.FormatDID`. -/
def formatDID (suffix : Bytes) : Bytes := didPrefix ++ suffix

/-- `did.ParseDID`. -/
def parseDID (did : Bytes) : Option Bytes :=
  if did.length ≤ didPrefix.length ∨ ¬(did.take didPrefix.length == didPrefix) then none
  else some (did.drop didPrefix.length)

/-! ## JWS handling (`pkg/did/processor.go`) -/

/-- `splitJWS`: split the compact serialization on the dots. -/
def splitJWS (jws : Bytes) : List Bytes := jws.splitOn 46

/-- `extractJWSPayload`: exactly three parts, base64url-decode the middle. -/
def extractJWSPayload (jws : Bytes) : Option Bytes :=
  let parts := splitJWS jws
  if parts.length = 3 then b64decode (parts.getD 1 []) else none

/-- `verifyUpdateSignature`: extract the payload, parse the signed data,
build a verifier from the embedded update key and check the signature. -/
def verifyUpdateSignature (env : Env) (jws : Bytes) : Option UpdateSignedData :=
  match extractJWSPayload jws with
  | none => none
  | some payload =>
    match env.parseUpdateSigned payload with
    | none => none
    | some sd =>
      if env.verifierOk sd.updateKey ∧ env.verify sd.updateKey jws payload then some sd
      else none

/-- `verifyRecoverSignature`. -/
def verifyRecoverSignature (env : Env) (jws : Bytes) : Option RecoverSignedData :=
  match extractJWSPayload jws with
  | none => none
  | some payload =>
    match env.parseRecoverSigned payload with
    | none => none
    | some sd =>
      if env.verifierOk sd.recoveryKey ∧ env.verify sd.recoveryKey jws payload then some sd
      else none

/-- `verifyDeactivateSignature`. -/
def verifyDeactivateSignature (env : Env) (jws : Bytes) : Option DeactivateSignedData :=
  match extractJWSPayload jws with
  | none => none
  | some payload =>
    match env.parseDeactivateSigned payload with
    | none => none
    | some sd =>
      if env.verifierOk sd.recoveryKey ∧ env.verify sd.recoveryKey jws payload then some sd
      else none

/-! ## State store (`pkg/storage`, `src/unnamed/part_001`)

The SQLite tables become lists of records.  `created_at` / `updated_at`
timestamps come from an explicit clock value `now` passed to each write,
mirroring `CURRENT_TIMESTAMP`; the operation id mirrors the
`AUTOINCREMENT` column. -/

/-- A row of the `dids` table. -/
structure DIDRecord where
  did : Bytes
  status : Bytes
  document : Bytes
  updateCommitment : Bytes
  recoveryCommitment : Bytes
  createdAtBallot : Nat
  lastOperationBallot : Nat
  createdAt : Nat
  updatedAt : Nat
deriving Repr, DecidableEq

/-- A row of the `operations` table. -/
structure OperationRecord where
  id : Nat
  did : Bytes
  ballotNumber : Nat
  operationType : Bytes
  operationData : Bytes
  createdAt : Nat
deriving Repr, DecidableEq

/-- A row of the `sync_state` table. -/
structure SyncEntry where
  key : Bytes
  value : Bytes
  updatedAt : Nat
deriving Repr, DecidableEq

/-- The store state: the three tables. -/
structure Store where
  dids : List DIDRecord
  ops : List OperationRecord
  syncState : List SyncEntry
deriving Repr, DecidableEq

/-- A fresh store. -/
def emptyStore : Store := ⟨[], [], []⟩

/-- `Store.GetDID`. -/
def getDID (s : Store) (did : Bytes) : Option DIDRecord :=
  s.dids.find? fun r => r.did == did

/-- `Store.DIDExists`. -/
def didExists (s : Store) (did : Bytes) : Bool := (getDID s did).isSome

/-! ## Canonical store state

The specification's store equality is over DID records canonicalized to
their protocol fields and over the operation log; row timestamps and the
autoincrement id are projected away. -/

/-- The protocol fields of a DID record (no timestamps). -/
structure CanonRecord where
  did : Bytes
  status : Bytes
  document : Bytes
  updateCommitment : Bytes
  recoveryCommitment : Bytes
  createdAtBallot : Nat
  lastOperationBallot : Nat
deriving Repr, DecidableEq

/-- The protocol fields of an operation log entry. -/
structure CanonOp where
  did : Bytes
  ballotNumber : Nat
  operationType : Bytes
  operationData : Bytes
deriving Repr, DecidableEq

/-- The canonical store: canonical records, canonical log, sync keys and
values. -/
structure CanonStore where
  dids : List CanonRecord
  ops : List CanonOp
  sync : List (Bytes × Bytes)
deriving Repr, DecidableEq

/-- Project a DID record. -/
def canonRec (r : DIDRecord) : CanonRecord :=
  ⟨r.did, r.status, r.document, r.updateCommitment, r.recoveryCommitment,
   r.createdAtBallot, r.lastOperationBallot⟩

/-- Project an operation record. -/
def canonOp (o : OperationRecord) : CanonOp :=
  ⟨o.did, o.ballotNumber, o.operationType, o.operationData⟩

/-- Project the whole store. -/
def canonStore (s : Store) : CanonStore :=
  ⟨s.dids.map canonRec, s.ops.map canonOp, s.syncState.map fun e => (e.key, e.value)⟩

/-- A pending store write.  Each processing function computes its writes
after all its reads, so a step is a read phase followed by a list of
effects applied in order. -/
inductive Effect where
  | saveDID (rec : CanonRecord)
  | saveOp (did : Bytes) (ballot : Nat) (opType : Bytes) (data : Bytes)
  | setSync (key : Bytes) (value : Bytes)
deriving Repr, DecidableEq

/-- The `ON CONFLICT(did) DO UPDATE` row of `Store.SaveDID`: the conflict
update rewrites every column except `did`, `created_at_ballot` and
`created_at`.  A `SaveDID` call only ever binds the protocol columns, so
the pending write carries a `CanonRecord`. -/
def mergeDID (old : DIDRecord) (rec : CanonRecord) (now : Nat) : DIDRecord :=
  ⟨old.did, rec.status, rec.document, rec.updateCommitment, rec.recoveryCommitment,
   old.createdAtBallot, rec.lastOperationBallot, old.createdAt, now⟩

/-- Apply one effect at clock value `now` (`Store.SaveDID`,
`Store.SaveOperation`, `Store.SetSyncState`). -/
def applyEffect (now : Nat) (s : Store) : Effect → Store
  | .saveDID rec =>
    if s.dids.any fun r => r.did == rec.did then
      { s with dids := s.dids.map fun old =>
          if old.did == rec.did then mergeDID old rec now else old }
    else
      { s with dids := s.dids ++
          [⟨rec.did, rec.status, rec.document, rec.updateCommitment,
            rec.recoveryCommitment, rec.createdAtBallot, rec.lastOperationBallot,
            now, now⟩] }
  | .saveOp did ballot ty data =>
    { s with ops := s.ops ++ [⟨s.ops.length + 1, did, ballot, ty, data, now⟩] }
  | .setSync k v =>
    if s.syncState.any fun e => e.key == k then
      { s with syncState := s.syncState.map fun e =>
          if e.key == k then ⟨k, v, now⟩ else e }
    else
      { s with syncState := s.syncState ++ [⟨k, v, now⟩] }

/-- Apply a list of effects in order. -/
def applyEffects (now : Nat) (s : Store) (effs : List Effect) : Store :=
  effs.foldl (applyEffect now) s

/-- Result of processing one ballot: clean, a returned error, or a Go
runtime panic. -/
inductive Outcome where
  | ok
  | err
  | panicked
deriving Repr, DecidableEq

/-! ## Replay processor (`pkg/did/processor.go`) -/

/-- Apply one patch during an UPDATE (the switch in `processUpdate`;
unknown actions fall through unchanged). -/
def applyPatch (doc : Document) (p : Patch) : Document :=
  if p.action == ascii "add-public-keys" then p.publicKeys.foldl addPublicKey doc
  else if p.action == ascii "remove-public-keys" then
    p.publicKeyIDs.foldl removePublicKey doc
  else if p.action == ascii "add-services" then p.services.foldl addService doc
  else if p.action == ascii "remove-services" then
    p.serviceIDs.foldl removeService doc
  else doc

/-- Apply all patches of a delta in order. -/
def applyPatches (doc : Document) (patches : List Patch) : Document :=
  patches.foldl applyPatch doc

/-- Apply one patch during a RECOVER (the switch in `processRecover` only
handles the two add actions; remove patches are ignored). -/
def applyRecoverPatch (doc : Document) (p : Patch) : Document :=
  if p.action == ascii "add-public-keys" then p.publicKeys.foldl addPublicKey doc
  else if p.action == ascii "add-services" then p.services.foldl addService doc
  else doc

/-- Apply all patches of a recovery delta in order. -/
def applyRecoverPatches (doc : Document) (patches : List Patch) : Document :=
  patches.foldl applyRecoverPatch doc

/-- `Processor.processCreate`: unmarshal, skip when the DID exists, then
save the record (status `active`, both ballot columns set) and the
operation log entry. -/
def processCreate (env : Env) (did opJSON : Bytes) (ballot : Nat) (s : Store) :
    List Effect × Outcome :=
  match env.parseCreate opJSON with
  | none => ([], .err)
  | some op =>
    if didExists s did then ([], .ok)
    else
      ([.saveDID ⟨did, ascii "active", env.marshalDocOpt op.initialDocument,
          op.updateCommitment, op.recoveryCommitment, ballot, ballot⟩,
        .saveOp did ballot (ascii "create") opJSON], .ok)

/-- `Processor.processUpdate`: unmarshal, load the record (missing or
non-active DIDs are skipped), check reveal, signature, key-reveal binding
and delta hash (each failure is an error), parse the stored document,
apply the patches, then save the rotated record and the log entry. -/
def processUpdate (env : Env) (did opJSON : Bytes) (ballot : Nat) (s : Store) :
    List Effect × Outcome :=
  match env.parseUpdate opJSON with
  | none => ([], .err)
  | some op =>
    match getDID s did with
    | none => ([], .ok)
    | some rec =>
      if ¬(rec.status == ascii "active") then ([], .ok)
      else if ¬verifyReveal op.revealValue rec.updateCommitment then ([], .err)
      else
        match verifyUpdateSignature env op.signedData with
        | none => ([], .err)
        | some sd =>
          if ¬verifyKeyMatchesReveal env sd.updateKey op.revealValue then ([], .err)
          else if ¬(hashToB64 (env.marshalDelta op.delta) == sd.deltaHash) then ([], .err)
          else
            match env.parseDoc rec.document with
            | none => ([], .err)
            | some doc =>
              ([.saveDID { canonRec rec with
                  document := env.marshalDoc (applyPatches doc op.delta.patches),
                  updateCommitment := op.delta.updateCommitment,
                  lastOperationBallot := ballot },
                .saveOp did ballot (ascii "update") opJSON], .ok)

/-- `Processor.processRecover`: as UPDATE but against the recovery
commitment; the new document is built from `NewDocument` with only the add
patches, and both commitments rotate. -/
def processRecover (env : Env) (did opJSON : Bytes) (ballot : Nat) (s : Store) :
    List Effect × Outcome :=
  match env.parseRecover opJSON with
  | none => ([], .err)
  | some op =>
    match getDID s did with
    | none => ([], .ok)
    | some rec =>
      if ¬(rec.status == ascii "active") then ([], .ok)
      else if ¬verifyReveal op.revealValue rec.recoveryCommitment then ([], .err)
      else
        match verifyRecoverSignature env op.signedData with
        | none => ([], .err)
        | some sd =>
          if ¬verifyKeyMatchesReveal env sd.recoveryKey op.revealValue then ([], .err)
          else if ¬(hashToB64 (env.marshalRecoverDelta op.delta) == sd.deltaHash) then
            ([], .err)
          else
            ([.saveDID { canonRec rec with
                document := env.marshalDoc
                  (applyRecoverPatches (newDocument did) op.delta.patches),
                updateCommitment := op.delta.updateCommitment,
                recoveryCommitment := sd.recoveryCommitment,
                lastOperationBallot := ballot },
              .saveOp did ballot (ascii "recover") opJSON], .ok)

/-- `Processor.processDeactivate`: reveal and signature against the
recovery commitment, suffix consistency check, then the record is marked
`deactivated`. -/
def processDeactivate (env : Env) (did opJSON : Bytes) (ballot : Nat) (s : Store) :
    List Effect × Outcome :=
  match env.parseDeactivate opJSON with
  | none => ([], .err)
  | some op =>
    match getDID s did with
    | none => ([], .ok)
    | some rec =>
      if ¬(rec.status == ascii "active") then ([], .ok)
      else if ¬verifyReveal op.revealValue rec.recoveryCommitment then ([], .err)
      else
        match verifyDeactivateSignature env op.signedData with
        | none => ([], .err)
        | some sd =>
          if ¬verifyKeyMatchesReveal env sd.recoveryKey op.revealValue then ([], .err)
          else
            match parseDID did with
            | none => ([], .err)
            | some suffix =>
              if ¬(sd.didSuffix == did) ∧ ¬(sd.didSuffix == suffix) then ([], .err)
              else
                ([.saveDID { canonRec rec with
                    status := ascii "deactivated",
                    lastOperationBallot := ballot },
                  .saveOp did ballot (ascii "deactivate") opJSON], .ok)

/-- `Processor.ProcessBallot` after the decision roll is fetched: skip
missing, empty and short payloads, strip envelopes, decode the legacy
payload (a decode error or wrong version skips the ballot), then dispatch
on the operation type (unknown types are an error). -/
def processBallot (env : Env) (s : Store) (ballot : Nat) (payload : Option Bytes) :
    List Effect × Outcome :=
  match payload with
  | none => ([], .ok)
  | some p =>
    if p.length ≤ 4 then ([], .ok)
    else
      match stripWrappers p with
      | none => ([], .panicked)
      | some stripped =>
        match decodePayload stripped with
        | .panicked => ([], .panicked)
        | .failed => ([], .ok)
        | .ok version opType suffix opJSON =>
          if ¬(version = 1) then ([], .ok)
          else
            let did := formatDID suffix
            if opType = 1 then processCreate env did opJSON ballot s
            else if opType = 2 then processUpdate env did opJSON ballot s
            else if opType = 3 then processRecover env did opJSON ballot s
            else if opType = 4 then processDeactivate env did opJSON ballot s
            else ([], .err)

/-- One ballot step: compute the writes, then apply them at the current
clock value. -/
def processBallotRun (env : Env) (now : Nat) (s : Store) (ballot : Nat)
    (payload : Option Bytes) : Store × Outcome :=
  let (effs, oc) := processBallot env s ballot payload
  (applyEffects now s effs, oc)

/-- Decimal ASCII of a number (`fmt.Sprintf` with the `d` verb). -/
def natBytes (n : Nat) : Bytes := ascii (toString n)

/-- The sync-state key written by `SyncFromBallot`. -/
def lastSyncedKey : Bytes := ascii "last_synced_ballot"

/-- `Processor.SyncFromBallot`: process consecutive ballots, advancing the
`last_synced_ballot` cursor after each clean ballot; any error aborts the
loop before the cursor write.  `times` is the clock sampled at each
ballot.  Returns the store, the processed count and the outcome. -/
def syncAux (env : Env) (times : Nat → Nat) (log : Nat → Option Bytes) :
    Store → Nat → Nat → Nat → Store × Nat × Outcome
  | s, _, 0, count => (s, count, .ok)
  | s, ballotNum, fuel + 1, count =>
    let (s1, oc) := processBallotRun env (times ballotNum) s ballotNum (log ballotNum)
    match oc with
    | .ok =>
      syncAux env times log
        (applyEffect (times ballotNum) s1 (.setSync lastSyncedKey (natBytes ballotNum)))
        (ballotNum + 1) fuel (count + 1)
    | oc => (s1, count, oc)

/-- `SyncFromBallot` from a start ballot with a ballot budget. -/
def syncFromBallot (env : Env) (times : Nat → Nat) (log : Nat → Option Bytes)
    (s : Store) (startBallot maxBallots : Nat) : Store × Nat × Outcome :=
  syncAux env times log s startBallot maxBallots 0

/-- The canonical image of the `SaveDID` conflict update. -/
def canonMerge (old rec : CanonRecord) : CanonRecord :=
  ⟨old.did, rec.status, rec.document, rec.updateCommitment, rec.recoveryCommitment,
   old.createdAtBallot, rec.lastOperationBallot⟩

/-- Apply a pending write to a canonical store (timestamps erased). -/
def canonApplyEffect (cs : CanonStore) : Effect → CanonStore
  | .saveDID rec =>
    if cs.dids.any fun r => r.did == rec.did then
      { cs with dids := cs.dids.map fun old =>
          if old.did == rec.did then canonMerge old rec else old }
    else
      { cs with dids := cs.dids ++ [rec] }
  | .saveOp did ballot ty data =>
    { cs with ops := cs.ops ++ [⟨did, ballot, ty, data⟩] }
  | .setSync k v =>
    if cs.sync.any fun e => e.1 == k then
      { cs with sync := cs.sync.map fun e => if e.1 == k then (k, v) else e }
    else
      { cs with sync := cs.sync ++ [(k, v)] }

/-- Apply a list of pending writes to a canonical store. -/
def canonApplyEffects (cs : CanonStore) (effs : List Effect) : CanonStore :=
  effs.foldl canonApplyEffect cs

theorem canonStore_applyEffect (now : Nat) (s : Store) (e : Effect) :
    canonStore (applyEffect now s e) = canonApplyEffect (canonStore s) e := by
  cases e with
  | saveDID rec =>
    simp only [applyEffect, canonApplyEffect, canonStore]
    have hany : ((List.map canonRec s.dids).any fun r => r.did == rec.did) =
        s.dids.any fun r => r.did == rec.did := by
      induction s.dids with
      | nil => rfl
      | cons a as ih => simp only [List.map_cons, List.any_cons, ih]; rfl
    rw [hany]
    by_cases hx : s.dids.any fun r => r.did == rec.did
    · rw [if_pos hx, if_pos hx]
      simp only [CanonStore.mk.injEq, List.map_map, and_true, true_and]
      apply List.map_congr_left
      intro old _
      by_cases hd : old.did == rec.did
      · have hd2 : ((canonRec old).did == rec.did) = true := hd
        simp only [Function.comp_apply, if_pos hd, if_pos hd2]
        rfl
      · have hd2 : ¬((canonRec old).did == rec.did) = true := hd
        simp only [Function.comp_apply, if_neg hd, if_neg hd2]
    · rw [if_neg hx, if_neg hx]
      simp only [CanonStore.mk.injEq, List.map_append, and_true, true_and]
      rfl
  | saveOp did ballot ty data =>
    simp only [applyEffect, canonApplyEffect, canonStore,
      CanonStore.mk.injEq, List.map_append, and_true, true_and]
    rfl
  | setSync k v =>
    simp only [applyEffect, canonApplyEffect, canonStore]
    have hany : (((List.map (fun e => (e.key, e.value)) s.syncState)).any
        fun e => e.1 == k) = s.syncState.any fun e => e.key == k := by
      induction s.syncState with
      | nil => rfl
      | cons a as ih => simp only [List.map_cons, List.any_cons, ih]
    rw [hany]
    by_cases hx : s.syncState.any fun e => e.key == k
    · rw [if_pos hx, if_pos hx]
      simp only [CanonStore.mk.injEq, List.map_map, and_true, true_and]
      apply List.map_congr_left
      intro e _
      by_cases hd : e.key == k
      · have hd2 : ((e.key, e.value).1 == k) = true := hd
        simp only [Function.comp_apply, if_pos hd, if_pos hd2]
      · have hd2 : ¬((e.key, e.value).1 == k) = true := hd
        simp only [Function.comp_apply, if_neg hd, if_neg hd2]
    · rw [if_neg hx, if_neg hx]
      simp only [CanonStore.mk.injEq, List.map_append, and_true, true_and]
      rfl

theorem canonStore_applyEffects (now : Nat) (s : Store) (effs : List Effect) :
    canonStore (applyEffects now s effs) =
      canonApplyEffects (canonStore s) effs := by
  induction effs generalizing s with
  | nil => rfl
  | cons e es ih =>
    simp only [applyEffects, List.foldl_cons, canonApplyEffects]
    rw [← canonStore_applyEffect now s e]
    exact ih (applyEffect now s e)

theorem find?_map_canon {l m : List DIDRecord}
    (h : l.map canonRec = m.map canonRec) (did : Bytes) :
    (l.find? fun r => r.did == did).map canonRec =
      (m.find? fun r => r.did == did).map canonRec := by
  induction l generalizing m with
  | nil =>
    cases m with
    | nil => rfl
    | cons b bs => exact absurd h (by simp)
  | cons a as ih =>
    cases m with
    | nil => exact absurd h (by simp)
    | cons b bs =>
      simp only [List.map_cons, List.cons.injEq] at h
      obtain ⟨hab, hrest⟩ := h
      have hdid : a.did = b.did := congrArg CanonRecord.did hab
      cases hm : b.did == did with
      | true =>
        have ha : (a.did == did) = true := by rw [hdid]; exact hm
        simp only [List.find?, ha, hm, Option.map_some']
        rw [hab]
      | false =>
        have ha : (a.did == did) = false := by rw [hdid]; exact hm
        simp only [List.find?, ha, hm]
        exact ih hrest

theorem getDID_canon {s t : Store} (h : canonStore s = canonStore t) (did : Bytes) :
    (getDID s did).map canonRec = (getDID t did).map canonRec := by
  have hd : s.dids.map canonRec = t.dids.map canonRec := by
    have h2 := congrArg CanonStore.dids h
    simpa [canonStore] using h2
  exact find?_map_canon hd did

theorem didExists_canon {s t : Store} (h : canonStore s = canonStore t) (did : Bytes) :
    didExists s did = didExists t did := by
  have hg := getDID_canon h did
  unfold didExists
  cases hs : getDID s did <;> cases ht : getDID t did <;> rw [hs, ht] at hg <;>
    simp_all

/-- Extract the component equalities of two canonically equal records. -/
theorem canonRec_fields {r1 r2 : DIDRecord} (h : canonRec r1 = canonRec r2) :
    r1.did = r2.did ∧ r1.status = r2.status ∧ r1.document = r2.document ∧
      r1.updateCommitment = r2.updateCommitment ∧
      r1.recoveryCommitment = r2.recoveryCommitment ∧
      r1.createdAtBallot = r2.createdAtBallot ∧
      r1.lastOperationBallot = r2.lastOperationBallot := by
  refine ⟨congrArg CanonRecord.did h, congrArg CanonRecord.status h,
    congrArg CanonRecord.document h, congrArg CanonRecord.updateCommitment h,
    congrArg CanonRecord.recoveryCommitment h,
    congrArg CanonRecord.createdAtBallot h,
    congrArg CanonRecord.lastOperationBallot h⟩

theorem processCreate_canon (env : Env) (did opJSON : Bytes) (ballot : Nat)
    {s t : Store} (h : canonStore s = canonStore t) :
    (processCreate env did opJSON ballot s).1 =
        (processCreate env did opJSON ballot t).1 ∧
      (processCreate env did opJSON ballot s).2 =
        (processCreate env did opJSON ballot t).2 := by
  unfold processCreate
  cases env.parseCreate opJSON with
  | none => exact ⟨rfl, rfl⟩
  | some op =>
    rw [didExists_canon h did]
    exact ⟨rfl, rfl⟩

theorem processUpdate_canon (env : Env) (did opJSON : Bytes) (ballot : Nat)
    {s t : Store} (h : canonStore s = canonStore t) :
    (processUpdate env did opJSON ballot s).1 =
        (processUpdate env did opJSON ballot t).1 ∧
      (processUpdate env did opJSON ballot s).2 =
        (processUpdate env did opJSON ballot t).2 := by
  unfold processUpdate
  cases env.parseUpdate opJSON with
  | none => exact ⟨rfl, rfl⟩
  | some op =>
    have hg := getDID_canon h did
    cases hs : getDID s did with
    | none =>
      cases ht : getDID t did with
      | none => exact ⟨rfl, rfl⟩
      | some rec2 => rw [hs, ht] at hg; exact absurd hg (by simp)
    | some rec1 =>
      cases ht : getDID t did with
      | none => rw [hs, ht] at hg; exact absurd hg (by simp)
      | some rec2 =>
        rw [hs, ht] at hg
        simp only [Option.map_some', Option.some.injEq] at hg
        obtain ⟨hdid, hstat, hdoc, huc, hrc, hcab, hlob⟩ := canonRec_fields hg
        simp only [canonRec, hdid, hstat, hdoc, huc, hrc, hcab]
        constructor <;> trivial

theorem processRecover_canon (env : Env) (did opJSON : Bytes) (ballot : Nat)
    {s t : Store} (h : canonStore s = canonStore t) :
    (processRecover env did opJSON ballot s).1 =
        (processRecover env did opJSON ballot t).1 ∧
      (processRecover env did opJSON ballot s).2 =
        (processRecover env did opJSON ballot t).2 := by
  unfold processRecover
  cases env.parseRecover opJSON with
  | none => exact ⟨rfl, rfl⟩
  | some op =>
    have hg := getDID_canon h did
    cases hs : getDID s did with
    | none =>
      cases ht : getDID t did with
      | none => exact ⟨rfl, rfl⟩
      | some rec2 => rw [hs, ht] at hg; exact absurd hg (by simp)
    | some rec1 =>
      cases ht : getDID t did with
      | none => rw [hs, ht] at hg; exact absurd hg (by simp)
      | some rec2 =>
        rw [hs, ht] at hg
        simp only [Option.map_some', Option.some.injEq] at hg
        obtain ⟨hdid, hstat, hdoc, huc, hrc, hcab, hlob⟩ := canonRec_fields hg
        simp only [canonRec, hdid, hstat, hdoc, huc, hrc, hcab]
        constructor <;> trivial

theorem processDeactivate_canon (env : Env) (did opJSON : Bytes) (ballot : Nat)
    {s t : Store} (h : canonStore s = canonStore t) :
    (processDeactivate env did opJSON ballot s).1 =
        (processDeactivate env did opJSON ballot t).1 ∧
      (processDeactivate env did opJSON ballot s).2 =
        (processDeactivate env did opJSON ballot t).2 := by
  unfold processDeactivate
  cases env.parseDeactivate opJSON with
  | none => exact ⟨rfl, rfl⟩
  | some op =>
    have hg := getDID_canon h did
    cases hs : getDID s did with
    | none =>
      cases ht : getDID t did with
      | none => exact ⟨rfl, rfl⟩
      | some rec2 => rw [hs, ht] at hg; exact absurd hg (by simp)
    | some rec1 =>
      cases ht : getDID t did with
      | none => rw [hs, ht] at hg; exact absurd hg (by simp)
      | some rec2 =>
        rw [hs, ht] at hg
        simp only [Option.map_some', Option.some.injEq] at hg
        obtain ⟨hdid, hstat, hdoc, huc, hrc, hcab, hlob⟩ := canonRec_fields hg
        simp only [canonRec, hdid, hstat, hdoc, huc, hrc, hcab]
        constructor <;> trivial

theorem processBallot_canon (env : Env) (ballot : Nat) (payload : Option Bytes)
    {s t : Store} (h : canonStore s = canonStore t) :
    (processBallot env s ballot payload).1 =
        (processBallot env t ballot payload).1 ∧
      (processBallot env s ballot payload).2 =
        (processBallot env t ballot payload).2 := by
  unfold processBallot
  cases payload with
  | none => exact ⟨rfl, rfl⟩
  | some p =>
    dsimp only
    by_cases hl : p.length ≤ 4
    · rw [if_pos hl, if_pos hl]; exact ⟨rfl, rfl⟩
    rw [if_neg hl, if_neg hl]
    cases stripWrappers p with
    | none => exact ⟨rfl, rfl⟩
    | some stripped =>
      dsimp only
      cases decodePayload stripped with
      | panicked => exact ⟨rfl, rfl⟩
      | failed => exact ⟨rfl, rfl⟩
      | ok version opType suffix opJSON =>
        dsimp only
        by_cases hv : ¬(version = 1)
        · rw [if_pos hv, if_pos hv]; exact ⟨rfl, rfl⟩
        rw [if_neg hv, if_neg hv]
        by_cases h1 : opType = 1
        · rw [if_pos h1, if_pos h1]
          exact processCreate_canon env _ opJSON ballot h
        rw [if_neg h1, if_neg h1]
        by_cases h2 : opType = 2
        · rw [if_pos h2, if_pos h2]
          exact processUpdate_canon env _ opJSON ballot h
        rw [if_neg h2, if_neg h2]
        by_cases h3 : opType = 3
        · rw [if_pos h3, if_pos h3]
          exact processRecover_canon env _ opJSON ballot h
        rw [if_neg h3, if_neg h3]
        by_cases h4 : opType = 4
        · rw [if_pos h4, if_pos h4]
          exact processDeactivate_canon env _ opJSON ballot h
        rw [if_neg h4, if_neg h4]
        exact ⟨rfl, rfl⟩

theorem processBallotRun_canon (env : Env) (n1 n2 : Nat) (ballot : Nat)
    (payload : Option Bytes) {s t : Store} (h : canonStore s = canonStore t) :
    canonStore (processBallotRun env n1 s ballot payload).1 =
        canonStore (processBallotRun env n2 t ballot payload).1 ∧
      (processBallotRun env n1 s ballot payload).2 =
        (processBallotRun env n2 t ballot payload).2 := by
  obtain ⟨heff, hoc⟩ := processBallot_canon env ballot payload h
  unfold processBallotRun
  constructor
  · rw [canonStore_applyEffects, canonStore_applyEffects, heff, h]
  · exact hoc

theorem syncAux_canon (env : Env) (t1 t2 : Nat → Nat) (log : Nat → Option Bytes)
    {s t : Store} (h : canonStore s = canonStore t)
    (ballotNum fuel count : Nat) :
    canonStore (syncAux env t1 log s ballotNum fuel count).1 =
        canonStore (syncAux env t2 log t ballotNum fuel count).1 ∧
      (syncAux env t1 log s ballotNum fuel count).2 =
        (syncAux env t2 log t ballotNum fuel count).2 := by
  induction fuel generalizing s t ballotNum count with
  | zero => exact ⟨h, rfl⟩
  | succ fuel ih =>
    obtain ⟨hst, hoc⟩ := processBallotRun_canon env (t1 ballotNum) (t2 ballotNum)
      ballotNum (log ballotNum) h
    unfold syncAux
    cases hr1 : processBallotRun env (t1 ballotNum) s ballotNum (log ballotNum) with
    | mk s1 oc1 =>
    cases hr2 : processBallotRun env (t2 ballotNum) t ballotNum (log ballotNum) with
    | mk s2 oc2 =>
    rw [hr1, hr2] at hst hoc
    dsimp only at hst hoc ⊢
    subst hoc
    cases oc1 with
    | ok =>
      have hsync : canonStore (applyEffect (t1 ballotNum) s1
            (.setSync lastSyncedKey (natBytes ballotNum))) =
          canonStore (applyEffect (t2 ballotNum) s2
            (.setSync lastSyncedKey (natBytes ballotNum))) := by
        rw [canonStore_applyEffect, canonStore_applyEffect, hst]
      exact ih hsync (ballotNum + 1) (count + 1)
    | err => exact ⟨hst, rfl⟩
    | panicked => exact ⟨hst, rfl⟩

/-- C1: Replay determinism.  Two processors that start from an empty store
and replay the same ballot log (the same payload bytes per ballot number)
reach equal stores after every ballot — equal DID records over the fields
of §3 canonicalisation (status, document, update commitment, recovery
commitment, creation ballot, last-operation ballot) and equal operation
logs and sync cursors — for any two wall-clock streams `t1`, `t2` sampled
per ballot, and they process the same number of ballots with the same
outcome.  The statement holds for every start ballot and every ballot
budget, hence after every ballot of the replay. -/
theorem c1_replay_determinism (env : Env) (t1 t2 : Nat → Nat)
    (log : Nat → Option Bytes) (startBallot maxBallots : Nat) :
    canonStore (syncFromBallot env t1 log emptyStore startBallot maxBallots).1 =
        canonStore (syncFromBallot env t2 log emptyStore startBallot maxBallots).1 ∧
      (syncFromBallot env t1 log emptyStore startBallot maxBallots).2 =
        (syncFromBallot env t2 log emptyStore startBallot maxBallots).2 :=
  syncAux_canon env t1 t2 log rfl startBallot maxBallots 0

/-! ### Claim C3 and C10 theorems -/

/-- A single-key UPDATE wire image whose 32-byte reveal-value field
(`0xaa` bytes) differs from the value the encoder recomputes from the
public key, exercising the decoder's unchecked discard of that field. -/
def c3CexBytes : Bytes :=
  [2, 2, 0] ++ List.replicate 32 0 ++ List.replicate 32 170 ++ [0] ++
    List.replicate 32 1 ++ List.replicate 64 2 ++ List.replicate 32 3 ++ [0]

set_option maxRecDepth 100000 in
/-- C3 counterexample: this byte string decodes successfully as an UPDATE,
yet re-encoding the decoded operation does not reproduce the input bytes —
the decoder discards the 32-byte reveal-value field without checking it and
the encoder recomputes a different value, so the claimed identity
`decode(b)` fails or `encode(decode(b)) = b` is false. -/
theorem c3_byte_roundtrip_cex :
    (decodeUpdate c3CexBytes).isSome = true ∧
      (decodeUpdate c3CexBytes).bind encodeUpdate ≠ some c3CexBytes := by
  constructor
  · decide
  · decide

/-- C3 (amended): decoding the encoding of a well-formed single-key or
threshold UPDATE or DEACTIVATE operation yields the same operation; the
byte-level direction `encode(decode(b)) = b` holds only for byte strings
that are themselves exact encodings, because the single-key reveal-value
field is discarded unchecked on decode and recomputed on encode, and
trailing bytes are ignored. -/
theorem c3_codec_roundtrip (c : CompactCreate) (u : CompactUpdate) (d : CompactDeactivate)
    (hc : wfCreate c = true) (hu : wfUpdate u = true) (hd : wfDeactivate d = true) :
    (encodeCreate c).bind decodeCreate = some c ∧
      (encodeUpdate u).bind decodeUpdate = some u ∧
      (encodeDeactivate d).bind decodeDeactivate = some d := by
  obtain ⟨oc, hoc⟩ := encodeCreate_isSome hc
  obtain ⟨ou, hou⟩ := encodeUpdate_isSome hu
  obtain ⟨od, hod⟩ := encodeDeactivate_isSome hd
  rw [hoc, hou, hod]
  simp only [Option.some_bind]
  exact ⟨decodeCreate_encodeCreate hc hoc, decodeUpdate_encodeUpdate hu hou,
    decodeDeactivate_encodeDeactivate hd hod⟩

/-- Concrete threshold CREATE used to witness the round trip. -/
def c3WitCreate : CompactCreate :=
  ⟨⟨2, 1, 1⟩, List.replicate 32 4, List.replicate 32 5, List.replicate 32 6,
    2, 3, 2, 3, [⟨[107], 0, List.replicate 32 7, 1⟩], [⟨[97], [65], [104]⟩]⟩

/-- Concrete single-key UPDATE used to witness the round trip. -/
def c3WitUpdate : CompactUpdate :=
  ⟨⟨2, 2, 0⟩, List.replicate 32 0,
    [⟨0, 0, List.replicate 32 1, 0, [], List.replicate 64 2⟩],
    List.replicate 32 3, ⟨[⟨3, [], [], [⟨[97], [65], [104]⟩], []⟩]⟩, []⟩

/-- Concrete threshold DEACTIVATE used to witness the round trip. -/
def c3WitDeactivate : CompactDeactivate :=
  ⟨⟨2, 4, 1⟩, List.replicate 32 0,
    [⟨5, 0, List.replicate 32 1, 2, [List.replicate 32 9, List.replicate 32 8],
      List.replicate 64 2⟩]⟩

set_option maxRecDepth 100000 in
/-- C3 witness: the amended round trip evaluated at concrete operations. -/
theorem c3_codec_roundtrip_witness :
    wfCreate c3WitCreate = true ∧ wfUpdate c3WitUpdate = true ∧
      wfDeactivate c3WitDeactivate = true ∧
      ((encodeCreate c3WitCreate).bind decodeCreate = some c3WitCreate ∧
        (encodeUpdate c3WitUpdate).bind decodeUpdate = some c3WitUpdate ∧
        (encodeDeactivate c3WitDeactivate).bind decodeDeactivate = some c3WitDeactivate) :=
  ⟨by decide, by decide, by decide,
    c3_codec_roundtrip c3WitCreate c3WitUpdate c3WitDeactivate
      (by decide) (by decide) (by decide)⟩

/-- The payload whose declared suffix length is the varint `2 ^ 64 - 1`:
version 1, op type 1, then a ten-byte varint. -/
def c10FailingInput : Bytes := [1, 1] ++ List.replicate 9 255 ++ [1]

/-- C10: `DecodePayload` is not total at the payload boundary — on a
payload whose suffix-length varint is `2 ^ 64 - 1` the Go code passes the
unchecked length to `make([]byte, n)` and the runtime panics
(`makeslice: len out of range`) instead of returning a decode error. -/
theorem c10_decodePayload_panics :
    decodePayload c10FailingInput = PayloadResult.panicked := by decide


/-! ### Claim C6: deactivation absorption -/

/-- An environment whose parsers all fail and whose verifier rejects;
single fields are overridden per test. -/
def envTriv : Env :=
  ⟨fun _ => none, fun _ => none, fun _ => none, fun _ => none, fun _ => none,
   fun _ => [], fun _ => [], fun _ => [], fun _ => [],
   fun _ => none, fun _ => none, fun _ => none,
   fun _ => [], fun _ => false, fun _ _ _ => false⟩

/-- C6: Deactivation absorption.  Once a DID record's status is
`deactivated`, a processed ballot carrying a well-formed UPDATE, RECOVER,
DEACTIVATE or CREATE operation addressed at that DID produces no store
writes and no error: the ballot yields the empty effect list with outcome
`ok`, and running the step leaves the store — in particular the record's
status, document, update commitment and recovery commitment — exactly
unchanged. -/
theorem c6_deactivation_absorption (env : Env) (s : Store) (ballot now : Nat)
    (p stripped suffix opJSON : Bytes) (opType : Nat) (rec : DIDRecord)
    (hlen : ¬p.length ≤ 4)
    (hstrip : stripWrappers p = some stripped)
    (hdec : decodePayload stripped = .ok 1 opType suffix opJSON)
    (hrec : getDID s (formatDID suffix) = some rec)
    (hstat : rec.status = ascii "deactivated")
    (hop : opType = 1 ∨ opType = 2 ∨ opType = 3 ∨ opType = 4)
    (hparse : (opType = 1 → (env.parseCreate opJSON).isSome) ∧
      (opType = 2 → (env.parseUpdate opJSON).isSome) ∧
      (opType = 3 → (env.parseRecover opJSON).isSome) ∧
      (opType = 4 → (env.parseDeactivate opJSON).isSome)) :
    processBallot env s ballot (some p) = ([], .ok) ∧
      processBallotRun env now s ballot (some p) = (s, .ok) := by
  have h1 : processBallot env s ballot (some p) = ([], .ok) := by
    unfold processBallot
    dsimp only
    rw [if_neg hlen, hstrip]
    dsimp only
    rw [hdec]
    dsimp only
    rw [if_neg (by simp)]
    rcases hop with h1t | h2t | h3t | h4t
    · subst h1t
      rw [if_pos rfl]
      obtain ⟨op, hps⟩ := Option.isSome_iff_exists.mp (hparse.1 rfl)
      unfold processCreate
      rw [hps]
      dsimp only
      rw [if_pos (by simp [didExists, hrec])]
    · subst h2t
      rw [if_neg (by decide), if_pos rfl]
      obtain ⟨op, hps⟩ := Option.isSome_iff_exists.mp (hparse.2.1 rfl)
      unfold processUpdate
      rw [hps]
      dsimp only
      rw [hrec]
      dsimp only
      rw [if_pos (by rw [hstat]; decide)]
    · subst h3t
      rw [if_neg (by decide), if_neg (by decide), if_pos rfl]
      obtain ⟨op, hps⟩ := Option.isSome_iff_exists.mp (hparse.2.2.1 rfl)
      unfold processRecover
      rw [hps]
      dsimp only
      rw [hrec]
      dsimp only
      rw [if_pos (by rw [hstat]; decide)]
    · subst h4t
      rw [if_neg (by decide), if_neg (by decide), if_neg (by decide), if_pos rfl]
      obtain ⟨op, hps⟩ := Option.isSome_iff_exists.mp (hparse.2.2.2 rfl)
      unfold processDeactivate
      rw [hps]
      dsimp only
      rw [hrec]
      dsimp only
      rw [if_pos (by rw [hstat]; decide)]
  refine ⟨h1, ?_⟩
  unfold processBallotRun
  rw [h1]
  rfl

/-- The deactivated record of the C6 witness. -/
def c6Rec : DIDRecord :=
  ⟨formatDID [97], ascii "deactivated", [], [], [], 0, 0, 0, 0⟩

/-- A store holding only the deactivated record. -/
def c6Store : Store := ⟨[c6Rec], [], []⟩

/-- A wire payload: version 1, DEACTIVATE, suffix `a`, body `b`. -/
def c6Payload : Bytes := [1, 4, 1, 97, 1, 98]

/-- An environment that parses the C6 DEACTIVATE body. -/
def c6Env : Env :=
  { envTriv with parseDeactivate := fun _ => some ⟨[], [], [], []⟩ }

theorem c6_deactivation_absorption_witness :
    processBallot c6Env c6Store 1 (some c6Payload) = ([], .ok) ∧
      processBallotRun c6Env 0 c6Store 1 (some c6Payload) = (c6Store, .ok) :=
  c6_deactivation_absorption c6Env c6Store 1 0 c6Payload c6Payload [97] [98] 4 c6Rec
    (by decide) (by decide) (by decide) (by decide) (by decide)
    (Or.inr (Or.inr (Or.inr rfl)))
    ⟨by decide, by decide, by decide, by decide⟩

/-! ### Claim C9: single-mode commitment round-trip -/

/-- C9: Single-mode commitment round-trip.  For every canonical JWK byte
string, `GenerateCommitment` returns the pair
`(commitment, reveal) = (b64(H(H(jwk))), b64(H(jwk)))` — the reveal is the
encoded hash of the canonical key and the commitment is the encoded hash
of the reveal bytes — the generated pair satisfies `VerifyReveal`, and
`VerifyReveal reveal commitment` holds exactly when the reveal decodes to
bytes whose hash re-encodes to the commitment. -/
theorem c9_commitment_roundtrip (jwkBytes revealValue commitment : Bytes) :
    generateCommitment jwkBytes =
        (b64encode (sha256 (sha256 jwkBytes)), b64encode (sha256 jwkBytes)) ∧
      verifyReveal (generateCommitment jwkBytes).2 (generateCommitment jwkBytes).1 = true ∧
      (verifyReveal revealValue commitment = true ↔
        ∃ rb, b64decode revealValue = some rb ∧ hashToB64 rb = commitment) := by
  have hdec : b64decode (b64encode (sha256 jwkBytes)) = some (sha256 jwkBytes) :=
    b64decode_b64encode _ (sha256_bytes_lt jwkBytes)
  have hgen : generateCommitment jwkBytes =
      (b64encode (sha256 (sha256 jwkBytes)), b64encode (sha256 jwkBytes)) := by
    simp only [generateCommitment, hashToB64, hdec, Option.getD_some]
  refine ⟨hgen, ?_, ?_⟩
  · rw [hgen]
    simp only [verifyReveal, hdec, hashToB64]
    exact beq_self_eq_true _
  · constructor
    · intro h
      cases hd : b64decode revealValue with
      | none =>
        simp only [verifyReveal, hd] at h
        exact (Bool.false_ne_true h).elim
      | some rb =>
        simp only [verifyReveal, hd, beq_iff_eq] at h
        exact ⟨rb, rfl, h⟩
    · rintro ⟨rb, hd, hh⟩
      simp only [verifyReveal, hd, beq_iff_eq]
      exact hh

/-! ### Claim C2: validator failure aborts the sync loop -/

/-- The active record targeted by the failing C2 UPDATE. -/
def c2Rec : DIDRecord :=
  ⟨formatDID [97], ascii "active", [], [], [], 0, 0, 0, 0⟩

/-- A store holding only the active record; no operations, no cursor. -/
def c2Store : Store := ⟨[c2Rec], [], []⟩

/-- A wire payload: version 1, UPDATE, suffix `a`, body `b`. -/
def c2Payload : Bytes := [1, 2, 1, 97, 1, 98]

/-- An environment that parses the C2 UPDATE body to an operation whose
reveal value `[0]` is not valid base64url, so the reveal check fails. -/
def c2Env : Env :=
  { envTriv with parseUpdate := fun _ => some ⟨[], [], [0], [], ⟨[], []⟩⟩ }

/-- C2 counterexample: a ballot whose payload decodes but whose reveal
check fails is NOT recorded for audit and the cursor is NOT advanced:
the whole sync run returns immediately with outcome `err`, zero ballots
processed, an unchanged operation log and no cursor write, instead of
swallowing the failure and continuing with the next ballot. -/
theorem c2_validator_failure_fatal_cex :
    processBallot c2Env c2Store 5 (some c2Payload) = ([], .err) ∧
      syncAux c2Env (fun _ => 0) (fun _ => some c2Payload) c2Store 5 3 0 =
        (c2Store, 0, .err) := by
  decide

/-- C2 (amended): validator failure is fatal and clean.  For every ballot
whose payload strips and decodes to a version-1 UPDATE that parses,
targets an active record and fails the reveal check, the processor
records nothing — no operation-log entry and no DID change — returns an
error, and the sync loop stops at that ballot with the store exactly as
it was and without writing the cursor. -/
theorem c2_validator_failure_aborts (env : Env) (s : Store) (ballot : Nat)
    (p stripped suffix opJSON : Bytes) (op : UpdateOperation) (rec : DIDRecord)
    (hlen : ¬p.length ≤ 4)
    (hstrip : stripWrappers p = some stripped)
    (hdec : decodePayload stripped = .ok 1 2 suffix opJSON)
    (hparse : env.parseUpdate opJSON = some op)
    (hrec : getDID s (formatDID suffix) = some rec)
    (hstat : rec.status = ascii "active")
    (hrev : verifyReveal op.revealValue rec.updateCommitment = false) :
    processBallot env s ballot (some p) = ([], .err) ∧
      ∀ (times : Nat → Nat) (log : Nat → Option Bytes) (fuel count : Nat),
        log ballot = some p →
          syncAux env times log s ballot (fuel + 1) count = (s, count, .err) := by
  have h1 : processBallot env s ballot (some p) = ([], .err) := by
    unfold processBallot
    dsimp only
    rw [if_neg hlen, hstrip]
    dsimp only
    rw [hdec]
    dsimp only
    rw [if_neg (by simp), if_neg (by decide), if_pos rfl]
    unfold processUpdate
    rw [hparse]
    dsimp only
    rw [hrec]
    dsimp only
    rw [if_neg (by rw [hstat]; decide), if_pos (by rw [hrev]; decide)]
  refine ⟨h1, ?_⟩
  intro times log fuel count hlog
  have hrun : processBallotRun env (times ballot) s ballot (some p) = (s, .err) := by
    unfold processBallotRun
    rw [h1]
    rfl
  unfold syncAux
  rw [hlog, hrun]

theorem c2_validator_failure_aborts_witness :
    processBallot c2Env c2Store 5 (some c2Payload) = ([], .err) ∧
      syncAux c2Env (fun _ => 0) (fun _ => some c2Payload) c2Store 5 3 0 =
        (c2Store, 0, .err) :=
  ⟨(c2_validator_failure_aborts c2Env c2Store 5 c2Payload c2Payload [97] [98]
      ⟨[], [], [0], [], ⟨[], []⟩⟩ c2Rec (by decide) (by decide) (by decide)
      (by decide) (by decide) (by decide) (by decide)).1,
   (c2_validator_failure_aborts c2Env c2Store 5 c2Payload c2Payload [97] [98]
      ⟨[], [], [0], [], ⟨[], []⟩⟩ c2Rec (by decide) (by decide) (by decide)
      (by decide) (by decide) (by decide) (by decide)).2
     (fun _ => 0) (fun _ => some c2Payload) 2 0 rfl⟩

/-! ### Claim C7: RECOVER replaces rather than patches -/

/-- A key added and then removed by the same recovery delta. -/
def c7Key : PublicKey := ⟨ascii "k", [], [], none⟩

/-- A recovery delta adding key `k` and then removing it: full patch
application leaves no key, the RECOVER path keeps it. -/
def c7Patches : List Patch :=
  [⟨ascii "add-public-keys", [c7Key], [], [], []⟩,
   ⟨ascii "remove-public-keys", [], [ascii "k"], [], []⟩]

/-- The concrete RECOVER operation of the C7 run. -/
def c7Op : RecoverOperation := ⟨[], [], hashToB64 [], [46, 46], ⟨c7Patches, []⟩⟩

/-- Its signed data: delta hash of the trivially marshalled delta and a
fresh recovery commitment. -/
def c7SD : RecoverSignedData := ⟨⟨[], [], [], [], [], [], []⟩, hashToB64 [], [99]⟩

/-- An active record whose recovery commitment matches the reveal. -/
def c7Rec : DIDRecord :=
  ⟨formatDID [97], ascii "active", [], [], hashToB64 (sha256 []), 0, 0, 0, 0⟩

/-- A store holding only that record. -/
def c7Store : Store := ⟨[c7Rec], [], []⟩

/-- An environment under which the C7 RECOVER passes every check and the
marshalled document records its number of public keys. -/
def c7Env : Env :=
  { envTriv with
      parseRecover := fun _ => some c7Op,
      parseRecoverSigned := fun _ => some c7SD,
      marshalJWK := fun _ => [],
      marshalRecoverDelta := fun _ => [],
      marshalDoc := fun d => [d.publicKeys.length],
      verifierOk := fun _ => true,
      verify := fun _ _ _ => true }

set_option maxRecDepth 1000000 in
/-- C7 counterexample: a valid RECOVER whose delta adds key `k` and then
removes it.  Applying the delta's patches to an empty document leaves no
key, but the processed RECOVER saves a document with one key (`[1]` under
the key-counting marshaller): the recovery path applies only the add
patches, not the delta's patches as a whole. -/
theorem c7_recover_replaces_cex :
    (applyPatches (newDocument (formatDID [97])) c7Patches).publicKeys = [] ∧
      (processRecover c7Env (formatDID [97]) [98] 3 c7Store).1 =
        [.saveDID ⟨formatDID [97], ascii "active", [1], [], [99], 0, 3⟩,
         .saveOp (formatDID [97]) 3 (ascii "recover") [98]] := by
  decide

/-- C7 (amended): RECOVER replaces, applying only the add patches.  Every
valid RECOVER saves a document built from the empty `NewDocument` — so
nothing is carried over from the prior document — by applying the
recovery delta's `add-public-keys` and `add-services` patches; every
other patch action (in particular removes) is ignored by the recovery
path rather than applied. -/
theorem c7_recover_replaces (env : Env) (did opJSON : Bytes) (ballot : Nat)
    (s : Store) (op : RecoverOperation) (rec : DIDRecord) (sd : RecoverSignedData)
    (hparse : env.parseRecover opJSON = some op)
    (hrec : getDID s did = some rec)
    (hstat : rec.status = ascii "active")
    (hrev : verifyReveal op.revealValue rec.recoveryCommitment = true)
    (hsig : verifyRecoverSignature env op.signedData = some sd)
    (hkey : verifyKeyMatchesReveal env sd.recoveryKey op.revealValue = true)
    (hdelta : (hashToB64 (env.marshalRecoverDelta op.delta) == sd.deltaHash) = true) :
    processRecover env did opJSON ballot s =
        ([.saveDID ⟨rec.did, rec.status,
            env.marshalDoc (applyRecoverPatches (newDocument did) op.delta.patches),
            op.delta.updateCommitment, sd.recoveryCommitment,
            rec.createdAtBallot, ballot⟩,
          .saveOp did ballot (ascii "recover") opJSON], .ok) ∧
      ∀ (doc : Document) (p : Patch),
        (p.action == ascii "add-public-keys") = false →
        (p.action == ascii "add-services") = false →
        applyRecoverPatch doc p = doc := by
  constructor
  · unfold processRecover
    rw [hparse]
    dsimp only
    rw [hrec]
    dsimp only
    rw [if_neg (by rw [hstat]; decide), if_neg (by rw [hrev]; decide), hsig]
    dsimp only
    rw [if_neg (by rw [hkey]; decide), if_neg (by rw [hdelta]; decide)]
    simp only [canonRec]
  · intro doc p h1 h2
    unfold applyRecoverPatch
    rw [if_neg (by rw [h1]; decide), if_neg (by rw [h2]; decide)]

set_option maxRecDepth 1000000 in
theorem c7_recover_replaces_witness :
    processRecover c7Env (formatDID [97]) [98] 3 c7Store =
        ([.saveDID ⟨formatDID [97], ascii "active",
            [(applyRecoverPatches (newDocument (formatDID [97])) c7Patches).publicKeys.length],
            [], [99], 0, 3⟩,
          .saveOp (formatDID [97]) 3 (ascii "recover") [98]], .ok) ∧
      applyRecoverPatch (newDocument []) ⟨ascii "remove-public-keys", [], [ascii "k"], [], []⟩ =
        newDocument [] :=
  ⟨(c7_recover_replaces c7Env (formatDID [97]) [98] 3 c7Store c7Op c7Rec c7SD
      (by decide) (by decide) (by decide) (by decide) (by decide) (by decide)
      (by decide)).1,
   (c7_recover_replaces c7Env (formatDID [97]) [98] 3 c7Store c7Op c7Rec c7SD
      (by decide) (by decide) (by decide) (by decide) (by decide) (by decide)
      (by decide)).2 (newDocument [])
     ⟨ascii "remove-public-keys", [], [ascii "k"], [], []⟩ (by decide) (by decide)⟩

/-! ### Claim C5: suffix self-certification -/

/-- The suffix the specification prescribes for a CREATE payload: the
base64url-encoded hash of the whole payload minus its header (the
two-byte version and operation-type prefix).  This definition follows the
spec's words and is compared against what the processor actually does. -/
def specCreateSuffix (payload : Bytes) : Bytes :=
  generateDIDSuffix (payload.drop 2)

/-- A CREATE payload claiming suffix `x` — not the hash of its body. -/
def c5Payload : Bytes := [1, 1, 1, 120, 1, 98]

/-- An environment that parses the C5 CREATE body. -/
def c5Env : Env :=
  { envTriv with parseCreate := fun _ => some ⟨[], none, [], []⟩ }

set_option maxRecDepth 1000000 in
/-- C5 counterexample: the processor applies a CREATE under its claimed
suffix `x` even though the hash of the payload's body is a different
(43-byte) string: the new record is stored under `did:char:x` with no
check against `specCreateSuffix`. -/
theorem c5_suffix_cex :
    processBallot c5Env emptyStore 1 (some c5Payload) =
        ([.saveDID ⟨formatDID [120], ascii "active", [], [], [], 1, 1⟩,
          .saveOp (formatDID [120]) 1 (ascii "create") [98]], .ok) ∧
      specCreateSuffix c5Payload ≠ [120] := by
  decide

/-- C5 (amended): the claimed suffix is stored unchecked.  For every
ballot whose payload decodes to a version-1 CREATE that parses and whose
DID does not yet exist, the processor stores the new record under the
suffix claimed in the payload — even when that suffix differs from the
hash of the payload's body prescribed by `specCreateSuffix` — so a CREATE
claiming a foreign suffix IS applied under that claimed suffix. -/
theorem c5_claimed_suffix_stored (env : Env) (s : Store) (ballot : Nat)
    (p stripped suffix opJSON : Bytes) (op : CreateOperation)
    (hlen : ¬p.length ≤ 4)
    (hstrip : stripWrappers p = some stripped)
    (hdec : decodePayload stripped = .ok 1 1 suffix opJSON)
    (hparse : env.parseCreate opJSON = some op)
    (hex : didExists s (formatDID suffix) = false)
    (hneq : suffix ≠ specCreateSuffix stripped) :
    processBallot env s ballot (some p) =
      ([.saveDID ⟨formatDID suffix, ascii "active",
          env.marshalDocOpt op.initialDocument,
          op.updateCommitment, op.recoveryCommitment, ballot, ballot⟩,
        .saveOp (formatDID suffix) ballot (ascii "create") opJSON], .ok) := by
  unfold processBallot
  dsimp only
  rw [if_neg hlen, hstrip]
  dsimp only
  rw [hdec]
  dsimp only
  rw [if_neg (by simp), if_pos rfl]
  unfold processCreate
  rw [hparse]
  dsimp only
  rw [if_neg (by rw [hex]; decide)]

set_option maxRecDepth 1000000 in
theorem c5_claimed_suffix_stored_witness :
    processBallot c5Env emptyStore 1 (some c5Payload) =
      ([.saveDID ⟨formatDID [120], ascii "active", [], [], [], 1, 1⟩,
        .saveOp (formatDID [120]) 1 (ascii "create") [98]], .ok) :=
  c5_claimed_suffix_stored c5Env emptyStore 1 c5Payload c5Payload [120] [98]
    ⟨[], none, [], []⟩ (by decide) (by decide) (by decide) (by decide)
    (by decide) (by decide)

/-! ### Claim C4: replay-step atomicity -/

/-- Apply pending writes with a per-call failure oracle.  Each effect is
an independent SQL statement (`SaveDID`, `SaveOperation`,
`SetSyncState`); the processor issues them sequentially with no enclosing
transaction, so a failing call aborts the remaining ones while every
earlier write persists.  Returns the resulting store and whether all
calls succeeded. -/
def applyEffectsPartial (now : Nat) (s : Store) :
    List Effect → (Effect → Bool) → Store × Bool
  | [], _ => (s, true)
  | e :: es, fails =>
    if fails e then (s, false)
    else applyEffectsPartial now (applyEffect now s e) es fails

/-- `List.any` over the DID table agrees with `find?.isSome`. -/
theorem dids_any_eq_find (l : List DIDRecord) (did : Bytes) :
    (l.any fun r => r.did == did) = (l.find? fun r => r.did == did).isSome := by
  induction l with
  | nil => rfl
  | cons a as ih =>
    cases h : a.did == did with
    | true => simp [List.any_cons, List.find?, h]
    | false => simp [List.any_cons, List.find?, h, ih]

/-- An environment that parses the C4 CREATE body. -/
def c4Env : Env :=
  { envTriv with parseCreate := fun _ => some ⟨[], none, [], []⟩ }

/-- The failure oracle of the C4 run: the operation-log append fails,
every other store call succeeds. -/
def c4Fails : Effect → Bool
  | .saveOp _ _ _ _ => true
  | _ => false

/-- C4 counterexample: a CREATE step whose operation-log append fails
after the DID record was written is NOT rolled back: the resulting store
contains the new DID row while the operation log and the sync cursor are
empty — a partially applied step, observable on restart. -/
theorem c4_atomicity_cex :
    applyEffectsPartial 7 emptyStore
        (processCreate c4Env (formatDID [97]) [98] 1 emptyStore).1 c4Fails =
      (⟨[⟨formatDID [97], ascii "active", [], [], [], 1, 1, 7, 7⟩], [], []⟩, false) := by
  decide

/-- C4 (amended): a failing operation-log append does not roll back the
DID write.  For every applied CREATE (the payload parses and the DID is
new) and every failure oracle under which `SaveDID` succeeds and
`SaveOperation` fails, the step leaves the store with the new DID row
appended while the operation log and the sync-state cursor are exactly as
before, and reports failure: the partial application is observable and
nothing is rolled back. -/
theorem c4_create_step_not_atomic (env : Env) (s : Store) (ballot now : Nat)
    (did opJSON : Bytes) (op : CreateOperation) (fails : Effect → Bool)
    (hparse : env.parseCreate opJSON = some op)
    (hex : didExists s did = false)
    (hf1 : ∀ r, fails (.saveDID r) = false)
    (hf2 : ∀ d b t x, fails (.saveOp d b t x) = true) :
    applyEffectsPartial now s (processCreate env did opJSON ballot s).1 fails =
      ({ s with dids := s.dids ++ [⟨did, ascii "active",
          env.marshalDocOpt op.initialDocument, op.updateCommitment,
          op.recoveryCommitment, ballot, ballot, now, now⟩] }, false) := by
  have heff : (processCreate env did opJSON ballot s).1 =
      [.saveDID ⟨did, ascii "active", env.marshalDocOpt op.initialDocument,
         op.updateCommitment, op.recoveryCommitment, ballot, ballot⟩,
       .saveOp did ballot (ascii "create") opJSON] := by
    unfold processCreate
    rw [hparse]
    dsimp only
    rw [if_neg (by rw [hex]; decide)]
  rw [heff]
  unfold applyEffectsPartial
  rw [if_neg (by rw [hf1]; decide)]
  unfold applyEffectsPartial
  rw [if_pos (hf2 _ _ _ _)]
  have hx : didExists s did = false := hex
  simp only [didExists, getDID] at hx
  unfold applyEffect
  dsimp only
  rw [if_neg (by rw [dids_any_eq_find]; simp [hx])]

theorem c4_create_step_not_atomic_witness :
    applyEffectsPartial 7 emptyStore
        (processCreate c4Env (formatDID [97]) [98] 1 emptyStore).1 c4Fails =
      (⟨[⟨formatDID [97], ascii "active", [], [], [], 1, 1, 7, 7⟩], [], []⟩,
       false) :=
  c4_create_step_not_atomic c4Env emptyStore 1 7 (formatDID [97]) [98]
    ⟨[], none, [], []⟩ c4Fails (by decide) (by decide)
    (fun _ => rfl) (fun _ _ _ _ => rfl)

/-! ### Claim C8: threshold anti-double-count

The threshold validation of THRESHOLD-DID.md exists in the repository only
as the design document's `processThresholdUpdate` / `verifyMerkleProof`
pseudocode; the definitions below are modelled from that text. -/

/-- Modelled from the spec: one reveal of a threshold UPDATE — controller
index, public key, reveal value, Merkle proof (leaf index and sibling
path) and signature. -/
structure ThresholdReveal where
  index : Int
  publicKey : Bytes
  revealValue : Bytes
  proofIndex : Nat
  proofSiblings : List Bytes
  signature : Bytes
deriving Repr, DecidableEq

/-- Modelled from the spec: `verifyMerkleProof` folds the sibling path
onto the leaf, hashing left or right by the parity of the running index,
and compares the result with the expected root. -/
def verifyMerkleProof (leaf : Bytes) (proofIndex : Nat) (siblings : List Bytes)
    (expectedRoot : Bytes) : Bool :=
  (siblings.foldl
    (fun (cur : Bytes × Nat) sibling =>
      (if cur.2 % 2 = 0 then hashToB64 (cur.1 ++ sibling)
       else hashToB64 (sibling ++ cur.1),
       cur.2 / 2))
    (leaf, proofIndex)).1 == expectedRoot

/-- Modelled from the spec: steps A-D of the per-reveal check — the
public key hashes to the reveal value, the leaf `H(revealValue)` proves
into the Merkle root, and the signature over the delta hash verifies
(`canon` and `sigOk` abstract canonicalisation and `verifySignature`). -/
def revealValid (sigOk : Bytes → Bytes → Bytes → Bool) (canon : Bytes → Bytes)
    (merkleRoot deltaHash : Bytes) (r : ThresholdReveal) : Bool :=
  if ¬(hashToB64 (canon r.publicKey) == r.revealValue) then false
  else if ¬verifyMerkleProof (hashToB64 r.revealValue) r.proofIndex
      r.proofSiblings merkleRoot then false
  else sigOk r.signature deltaHash r.publicKey

/-- Modelled from the spec: the reveal loop of `processThresholdUpdate`.
A repeated or out-of-range controller index is a hard error (`none`);
an individually invalid reveal is skipped; otherwise the valid count
grows.  `used` carries the `usedIndices` set. -/
def countValidReveals (sigOk : Bytes → Bytes → Bytes → Bool)
    (canon : Bytes → Bytes) (controllerCount : Int) (merkleRoot deltaHash : Bytes) :
    List ThresholdReveal → List Int → Nat → Option Nat
  | [], _, validCount => some validCount
  | r :: rest, used, validCount =>
    if r.index ∈ used then none
    else if r.index < 0 ∨ controllerCount ≤ r.index then none
    else
      countValidReveals sigOk canon controllerCount merkleRoot deltaHash rest
        (r.index :: used)
        (if revealValid sigOk canon merkleRoot deltaHash r then validCount + 1
         else validCount)

/-- Modelled from the spec: `processThresholdUpdate`'s validation —
enough reveals, no duplicate or out-of-range index, and at least
`threshold` individually valid reveals. -/
def validateThresholdReveals (sigOk : Bytes → Bytes → Bytes → Bool)
    (canon : Bytes → Bytes) (threshold : Nat) (controllerCount : Int)
    (merkleRoot deltaHash : Bytes) (reveals : List ThresholdReveal) : Bool :=
  if reveals.length < threshold then false
  else
    match countValidReveals sigOk canon controllerCount merkleRoot deltaHash
        reveals [] 0 with
    | none => false
    | some validCount => if validCount < threshold then false else true

/-- If the reveal loop completes, the reveal indices were pairwise
distinct and disjoint from the incoming used set. -/
theorem countValid_isSome_nodup (sigOk : Bytes → Bytes → Bytes → Bool)
    (canon : Bytes → Bytes) (cc : Int) (root dh : Bytes) :
    ∀ (reveals : List ThresholdReveal) (used : List Int) (acc : Nat),
      (countValidReveals sigOk canon cc root dh reveals used acc).isSome = true →
      (reveals.map fun r => r.index).Nodup ∧ ∀ r ∈ reveals, r.index ∉ used := by
  intro reveals
  induction reveals with
  | nil =>
    intro used acc _
    exact ⟨List.nodup_nil, by simp⟩
  | cons r rest ih =>
    intro used acc h
    unfold countValidReveals at h
    by_cases hm : r.index ∈ used
    · rw [if_pos hm] at h
      exact absurd h (by simp)
    rw [if_neg hm] at h
    by_cases hr : r.index < 0 ∨ cc ≤ r.index
    · rw [if_pos hr] at h
      exact absurd h (by simp)
    rw [if_neg hr] at h
    obtain ⟨hnd, hnotin⟩ := ih (r.index :: used) _ h
    have hrx : r.index ∉ rest.map fun x => x.index := by
      intro hmem
      obtain ⟨x, hx, hxe⟩ := List.mem_map.mp hmem
      exact (hnotin x hx) (by rw [hxe]; exact List.mem_cons_self _ _)
    refine ⟨List.nodup_cons.mpr ⟨hrx, hnd⟩, ?_⟩
    intro x hx
    rcases List.mem_cons.mp hx with hx1 | hx2
    · subst hx1
      exact hm
    · intro hxu
      exact (hnotin x hx2) (List.mem_cons_of_mem _ hxu)

/-- C8: Threshold anti-double-count.  A threshold(M, N) UPDATE whose
reveal list repeats a controller index — the mapped index list is not
duplicate-free — never validates, whatever the threshold, controller
count, Merkle root, delta hash, signature oracle and canonicalisation,
and however valid each reveal is individually: `usedIndices` turns the
second use of an index into a hard error before the threshold count. -/
theorem c8_threshold_anti_double_count (sigOk : Bytes → Bytes → Bytes → Bool)
    (canon : Bytes → Bytes) (threshold : Nat) (controllerCount : Int)
    (merkleRoot deltaHash : Bytes) (reveals : List ThresholdReveal)
    (hdup : ¬(reveals.map fun r => r.index).Nodup) :
    validateThresholdReveals sigOk canon threshold controllerCount
      merkleRoot deltaHash reveals = false := by
  unfold validateThresholdReveals
  by_cases hlen : reveals.length < threshold
  · rw [if_pos hlen]
  rw [if_neg hlen]
  cases hcv : countValidReveals sigOk canon controllerCount merkleRoot deltaHash
      reveals [] 0 with
  | none => rfl
  | some vc =>
    exact absurd (countValid_isSome_nodup sigOk canon controllerCount merkleRoot
      deltaHash reveals [] 0 (by rw [hcv]; rfl)).1 hdup

/-- A reveal repeated verbatim for the C8 witness. -/
def c8Reveal : ThresholdReveal := ⟨0, [1], [2], 0, [], [3]⟩

theorem c8_threshold_anti_double_count_witness :
    validateThresholdReveals (fun _ _ _ => true) id 2 5 [] []
      [c8Reveal, c8Reveal] = false :=
  c8_threshold_anti_double_count (fun _ _ _ => true) id 2 5 [] []
    [c8Reveal, c8Reveal] (by decide)

end DidChar
